import Mathlib

/-!
Verification of the TOPdesk activity-tracking core.

This file gives a shallow embedding of the change-detection engine of the
repository, which exists in two variants:

* `get_new_activities` models `TopdeskTracker.get_new_activities` from
  `topdesk_utils.py` (the REST tracker), including the fallibility of the
  transport client (`TopdeskClient._make_request` aborts on any transport
  error, so every client call is modelled as `Except Unit _`).
* `check_for_updates` models `TopdeskBrowser.check_for_updates` from
  `topdesk_browser.py` (the browser tracker), whose data fetches are pure
  in the model.

Items and comments are modelled with exactly the fields the tracking logic
reads (`id`, the status payload, `creation_date`); the remaining payload
fields (subject, caller, ...) are carried along unread by the source code
and are omitted.  Python string truthiness (`if s:`) is modelled explicitly:
an absent key is `none`, and the empty string is falsy.

The persisted snapshot store (`_load_cache` / `_load_previous_state`, which
are line-for-line identical in both modules) is modelled over a small JSON
value type, with the read outcome (absent file, IOError, JSON parse failure,
parsed value) made explicit.
-/

set_option autoImplicit false

/-- Mappings `id -> value`; Python dicts keyed by strings, in insertion
order (the order the tracking code relies on is only lookup and in-place
update / append, which `aupdate` mirrors). -/
abbrev SMap (α : Type) : Type := List (String × α)

/-- `m[k] = v` on a Python dict: update the binding in place if the key is
present, otherwise append the new binding at the end. -/
def aupdate {α : Type} (k : String) (v : α) : SMap α → SMap α
  | [] => [(k, v)]
  | (k₁, v₁) :: rest => if k₁ = k then (k, v) :: rest else (k₁, v₁) :: aupdate k v rest

/-- JSON values, as far as the persisted snapshot file is concerned. -/
inductive Json where
  | null
  | str (s : String)
  | arr (elems : List Json)
  | obj (fields : List (String × Json))


/-- The fresh empty snapshot both `_load_cache` and `_load_previous_state`
substitute when the persisted file cannot be used:
`{"incidents": {}, "changes": {}, "last_check": None}`. -/
def emptySnapshotJson : Json :=
  .obj [("incidents", .obj []), ("changes", .obj []), ("last_check", .null)]

/-- The observable state of the persisted snapshot location as seen by
`_load_cache`: the file may be absent (`os.path.exists` is false), reading
it may raise `IOError`, or its content parses to `some j` / fails to parse
(`json.JSONDecodeError`), modelled as `none`. -/
inductive PersistedFile where
  | absent
  | unreadable
  | content (parsed : Option Json)


/-- `TopdeskTracker._load_cache` (topdesk_utils.py lines 25-35); the
browser's `_load_previous_state` (topdesk_browser.py lines 633-643) is
line-for-line the same logic.  Absent file, `IOError` and JSON decode
failure all yield the fresh empty snapshot; a successfully parsed value is
returned as is. -/
def load_cache : PersistedFile → Json
  | .absent => emptySnapshotJson
  | .unreadable => emptySnapshotJson
  | .content none => emptySnapshotJson
  | .content (some j) => j

/-- Spec-side predicate (not from the source): a JSON value is a
well-formed persisted snapshot document in the sense of spec section 6 -
top-level fields `incidents` and `changes` mapping ids to entries with a
string `last_status` and a string-or-null `last_comment_date`, plus a
string-or-null (or absent) `last_check`. -/
def specStringOrNull : Json → Bool
  | .null => true
  | .str _ => true
  | _ => false

/-- Spec-side predicate: a well-formed per-id snapshot entry (spec section 6). -/
def specEntryJson : Json → Bool
  | .obj fields =>
    (match List.lookup "last_status" fields with
     | some (.str _) => true
     | _ => false)
    && (match List.lookup "last_comment_date" fields with
        | some v => specStringOrNull v
        | none => false)
  | _ => false

/-- Spec-side predicate: a well-formed persisted snapshot document (spec section 6). -/
def specSnapshotJson : Json → Bool
  | .obj fields =>
    (match List.lookup "incidents" fields with
     | some (.obj entries) => entries.all fun p => specEntryJson p.2
     | _ => false)
    && (match List.lookup "changes" fields with
        | some (.obj entries) => entries.all fun p => specEntryJson p.2
        | _ => false)
    && (match List.lookup "last_check" fields with
        | some v => specStringOrNull v
        | none => true)
  | _ => false

/-- The `status` payload of a fetched incident or change as the REST
tracker reads it: `item.get("status", {}).get("name", "Unknown")` - the
`status` key may be absent, may be an object without a `name`, or carries a
name string.  The same shape is used for the `priority` payload in the
summary report. -/
inductive NameField where
  | absent
  | noName
  | name (s : String)
deriving DecidableEq

/-- `x.get("status", {}).get("name", "Unknown")` (topdesk_utils.py lines
66, 71, 108, 113, 166, 187). -/
def nameOrUnknown : NameField → String
  | .absent => "Unknown"
  | .noName => "Unknown"
  | .name s => s

/-- A fetched incident or change as the REST tracker reads it: only `id`
(`item.get('id', '')`, so an absent id is the empty string) and the status
payload are consulted by the tracking logic. -/
structure UItem where
  id : String
  status : NameField
deriving DecidableEq

def uStatusName (item : UItem) : String := nameOrUnknown item.status

/-- A fetched comment as the REST tracker reads it: only
`comment.get("creation_date")` is consulted (`none` models an absent key). -/
structure UComment where
  creation_date : Option String
deriving DecidableEq

/-- A per-id cache entry of the REST tracker:
`{"last_status": ..., "last_comment_date": ...}`. -/
structure UEntry where
  last_status : String
  last_comment_date : Option String
deriving DecidableEq

/-- An element of the `updated_incidents` / `updated_changes` lists: the
dicts tagged `"type": "status_change"` and `"type": "new_comment"`. -/
inductive UUpdate where
  | status_change (item : UItem) (old_status new_status : String)
  | new_comment (item : UItem) (comment : UComment)
deriving DecidableEq

def UUpdate.isStatusChange : UUpdate → Bool
  | .status_change _ _ _ => true
  | .new_comment _ _ => false

def UUpdate.isNewComment : UUpdate → Bool
  | .status_change _ _ _ => false
  | .new_comment _ _ => true

/-- The in-memory cache `self.cache` of `TopdeskTracker`. -/
structure UCache where
  incidents : SMap UEntry
  changes : SMap UEntry
  last_check : Option String
deriving DecidableEq

/-- The return value of `get_new_activities`. -/
structure UActivities where
  new_incidents : List UItem
  updated_incidents : List UUpdate
  new_changes : List UItem
  updated_changes : List UUpdate
deriving DecidableEq

/-- The payload of a per-id detail fetch as `get_summary_report` reads it
(topdesk_utils.py lines 160-196): `number`, `subject` and
`modification_date` default to `"N/A"` / `"Unknown"` when absent, and the
`status` / `priority` payloads go through the
`.get(..., {}).get("name", "Unknown")` pattern. -/
structure UDetails where
  number : Option String
  subject : Option String
  status : NameField
  modification_date : Option String
  priority : NameField
deriving DecidableEq

/-- The transport client (`TopdeskClient`) as the tracker consumes it.
Every operation goes through `_make_request`, which on any transport
failure terminates the process (`sys.exit(1)`, topdesk_client.py lines
145-162); that abort is modelled as `Except.error ()`.  `_make_request`
returns `None` for an empty response body (line 143), hence the
`Option UDetails` results for the detail fetches. -/
structure UClient where
  get_my_incidents : Except Unit (List UItem)
  get_my_changes : Except Unit (List UItem)
  get_comments : String → String → Except Unit (List UComment)
  get_incident_details : String → Except Unit (Option UDetails)
  get_change_details : String → Except Unit (Option UDetails)

/-- A client whose calls never fail and whose answers depend only on the
arguments: fixed incident and change lists, and a fixed per-id comment
list.  The detail fetches are not used by `get_new_activities`. -/
def UClient.ofPure (incs chs : List UItem) (cf : String → String → List UComment) : UClient where
  get_my_incidents := .ok incs
  get_my_changes := .ok chs
  get_comments := fun i k => .ok (cf i k)
  get_incident_details := fun _ => .ok none
  get_change_details := fun _ => .ok none

/-- Lexicographic comparison of character lists, mirroring Python string
comparison (and agreeing with the library order on `String`, see
`strLtB_iff`); written as a structurally recursive boolean so that it
evaluates on concrete inputs. -/
def charListLt : List Char → List Char → Bool
  | [], [] => false
  | [], _ :: _ => true
  | _ :: _, [] => false
  | a :: as, b :: bs => if a < b then true else if b < a then false else charListLt as bs

/-- Python `latest_date > cached` on date strings: lexicographic string
comparison. -/
def strLtB (a b : String) : Bool := charListLt a.data b.data

/-- The new-comment trigger shared by both trackers, for a candidate date
string `d` against the cached `last_comment_date`:
`if not cached_last_comment or latest_date > cached_last_comment` guarded
by `if latest_date:` - Python string truthiness (`none` and `""` are
falsy) and lexicographic string comparison. -/
def newCommentFires (cached : Option String) (d : String) : Bool :=
  decide (d ≠ "") &&
    (match cached with
     | none => true
     | some p => decide (p = "") || strLtB p d)

/-- First half of one iteration of the per-item loop of
`get_new_activities` (topdesk_utils.py lines 62-79 for incidents, 104-121
for changes): unseen ids are recorded as new with a fresh entry, known ids
get the status comparison. Returns the updated mapping, the items appended
to the `new_*` list and the events appended to the `updated_*` list. -/
def uPhase1 (m : SMap UEntry) (item : UItem) : SMap UEntry × List UItem × List UUpdate :=
  match List.lookup item.id m with
  | none => (aupdate item.id ⟨uStatusName item, none⟩ m, [item], [])
  | some e =>
    if uStatusName item = e.last_status then (m, [], [])
    else
      (aupdate item.id { e with last_status := uStatusName item } m, [],
       [.status_change item e.last_status (uStatusName item)])

/-- Second half of one iteration of the per-item loop (topdesk_utils.py
lines 81-97 / 123-139): the comment check.  It runs for new and known
items alike, takes `comments[0]` as "the latest comment", and requires its
`creation_date` to be truthy.  The entry for `item.id` always exists here
(phase 1 created it if needed); the `none` lookup branch is unreachable. -/
def uPhase2 (m : SMap UEntry) (item : UItem) (comments : List UComment) :
    SMap UEntry × List UUpdate :=
  match comments with
  | [] => (m, [])
  | c :: _ =>
    match c.creation_date with
    | none => (m, [])
    | some d =>
      match List.lookup item.id m with
      | none => (m, [])
      | some e =>
        if newCommentFires e.last_comment_date d then
          (aupdate item.id { e with last_comment_date := some d } m, [.new_comment item c])
        else (m, [])

/-- One full iteration of the per-item loop of `get_new_activities`,
with the fallible `self.client.get_comments(item_id, kind)` call between
the two phases.  Items with a falsy id are skipped (`if incident_id:`). -/
def uStep (client : UClient) (kind : String)
    (acc : SMap UEntry × List UItem × List UUpdate) (item : UItem) :
    Except Unit (SMap UEntry × List UItem × List UUpdate) :=
  if item.id = "" then .ok acc
  else
    let p1 := uPhase1 acc.1 item
    match client.get_comments item.id kind with
    | .error e => .error e
    | .ok comments =>
      let p2 := uPhase2 p1.1 item comments
      .ok (p2.1, acc.2.1 ++ p1.2.1, acc.2.2 ++ p1.2.2 ++ p2.2)

/-- The per-item loop of `get_new_activities` over one fetched list. -/
def uFold (client : UClient) (kind : String)
    (acc : SMap UEntry × List UItem × List UUpdate) :
    List UItem → Except Unit (SMap UEntry × List UItem × List UUpdate)
  | [] => .ok acc
  | x :: xs =>
    match uStep client kind acc x with
    | .error e => .error e
    | .ok acc₁ => uFold client kind acc₁ xs

/-- `TopdeskTracker.get_new_activities` (topdesk_utils.py lines 42-150):
fetch both lists, run the per-item loop for incidents and for changes,
set `last_check = now` and return the four event lists together with the
cache that `_save_cache` then persists.  Any failing client call aborts
the whole run (the `SystemExit` raised by `_make_request`), before
`_save_cache` is reached. -/
def get_new_activities (client : UClient) (now : String) (cache : UCache) :
    Except Unit (UActivities × UCache) :=
  match client.get_my_incidents with
  | .error e => .error e
  | .ok my_incidents =>
    match client.get_my_changes with
    | .error e => .error e
    | .ok my_changes =>
      match uFold client "incident" (cache.incidents, [], []) my_incidents with
      | .error e => .error e
      | .ok accI =>
        match uFold client "change" (cache.changes, [], []) my_changes with
        | .error e => .error e
        | .ok accC =>
          .ok (⟨accI.2.1, accI.2.2, accC.2.1, accC.2.2⟩,
               ⟨accI.1, accC.1, some now⟩)

/-- The state of the persisted cache file after one `check-updates`
invocation: `_save_cache` runs only when `get_new_activities` reaches its
end; a transport failure exits the process first and leaves the persisted
file untouched. -/
def persistedAfterRun (client : UClient) (now : String) (persisted : UCache) : UCache :=
  match get_new_activities client now persisted with
  | .ok rc => rc.2
  | .error _ => persisted

/-- A fetched incident or change as the browser tracker reads it:
`incident.get('id')` (may be absent) and `incident.get('status')`.  The
browser scraper always fills both with strings, but `check_for_updates`
only assumes dict access, so both are `Option String` with Python
truthiness checks where the source has them. -/
structure BItem where
  id : Option String
  status : Option String
deriving DecidableEq

/-- A scraped comment as the browser tracker reads it:
`comment.get('creation_date')`. -/
structure BComment where
  creation_date : Option String
deriving DecidableEq

/-- A per-id entry of the browser's persisted state:
`{'status': ..., 'last_comment_date': ..., 'last_check': ...}` (the
`last_check` member is written at creation and never read back). -/
structure BEntry where
  status : Option String
  last_comment_date : Option String
  last_check : Option String
deriving DecidableEq

/-- An element of the browser's `updated_incidents` / `updated_changes`
lists. -/
inductive BUpdate where
  | status_change (item : BItem) (old_status new_status : String)
  | new_comment (item : BItem) (comment : BComment)
deriving DecidableEq

def BUpdate.isStatusChange : BUpdate → Bool
  | .status_change _ _ _ => true
  | .new_comment _ _ => false

def BUpdate.isNewComment : BUpdate → Bool
  | .status_change _ _ _ => false
  | .new_comment _ _ => true

/-- The browser's `previous_data` state. -/
structure BCache where
  incidents : SMap BEntry
  changes : SMap BEntry
  last_check : Option String
deriving DecidableEq

/-- The return value of `check_for_updates`. -/
structure BResult where
  new_incidents : List BItem
  updated_incidents : List BUpdate
  new_changes : List BItem
  updated_changes : List BUpdate
deriving DecidableEq

/-- The browser session as `check_for_updates` consumes it: the two
overview scrapes and, per id and kind, the comment list returned by
`get_incident_details(id)['comments']` / `get_change_details(id)['comments']`. -/
structure BSource where
  incidents : List BItem
  changes : List BItem
  comments : String → String → List BComment

/-- `incident_id = incident.get('id'); if not incident_id: continue`
(topdesk_browser.py lines 504-506): the key under which an item is
tracked, `none` when the id is absent or empty. -/
def bItemKey (item : BItem) : Option String :=
  match item.id with
  | none => none
  | some i => if i = "" then none else some i

/-- `TopdeskBrowser._get_latest_comment_date` (topdesk_browser.py lines
619-631), first step: the truthy `creation_date` strings of the comments. -/
def bDates (comments : List BComment) : List String :=
  comments.filterMap fun c =>
    match c.creation_date with
    | none => none
    | some s => if s = "" then none else some s

/-- Python `max` over a nonempty string list: left fold keeping the first
maximum. -/
def maxString (d : String) (ds : List String) : String :=
  ds.foldl (fun a b => if strLtB a b then b else a) d

/-- `TopdeskBrowser._get_latest_comment_date` (topdesk_browser.py lines
619-631): `None` for an empty comment list, otherwise `max(dates)` over
the truthy dates, `None` if there are none. -/
def get_latest_comment_date (comments : List BComment) : Option String :=
  match comments with
  | [] => none
  | _ =>
    match bDates comments with
    | [] => none
    | d :: ds => some (maxString d ds)

/-- The sort key `x.get('creation_date', '')` used when the browser picks
the newest comment object (topdesk_browser.py lines 541-543). -/
def bCommentKey (c : BComment) : String := c.creation_date.getD ""

/-- `sorted(comments, key=lambda x: x.get('creation_date', ''),
reverse=True)[0]` (topdesk_browser.py lines 538-545): Python's sort is
stable and `reverse=True` keeps the original order among equal keys, so
the head of the sorted list is the first comment with maximal key, which
the left fold keeping the first maximum computes directly. -/
def bLatestComment (comments : List BComment) : Option BComment :=
  match comments with
  | [] => none
  | c :: cs => some (cs.foldl (fun a b => if strLtB (bCommentKey a) (bCommentKey b) then b else a) c)

/-- `if prev_status and curr_status and prev_status != curr_status`
(topdesk_browser.py line 522). -/
def bStatusFire (prev cur : Option String) : Bool :=
  match prev, cur with
  | some p, some c => decide (p ≠ "" ∧ c ≠ "" ∧ p ≠ c)
  | _, _ => false

/-- `if latest_comment_date and (not prev_comment_date or
latest_comment_date > prev_comment_date)` (topdesk_browser.py line 536). -/
def bCommentFire (cached lcd : Option String) : Bool :=
  match lcd with
  | none => false
  | some d => newCommentFires cached d

/-- One iteration of the per-item loop of `check_for_updates`
(topdesk_browser.py lines 503-553 for incidents, 556-606 for changes).
An unseen id yields the new-item entry (status comparison and comment
check are in the `else` branch here, unlike the REST tracker); a known id
gets the status comparison and then the comment check, whose
`last_comment_date` assignment sits outside the `if latest_comment:`
guard. -/
def bStep (f : String → String → List BComment) (kind now : String)
    (acc : SMap BEntry × List BItem × List BUpdate) (item : BItem) :
    SMap BEntry × List BItem × List BUpdate :=
  match bItemKey item with
  | none => acc
  | some iid =>
    match List.lookup iid acc.1 with
    | none =>
      (aupdate iid ⟨item.status, get_latest_comment_date (f iid kind), some now⟩ acc.1,
       acc.2.1 ++ [item], acc.2.2)
    | some e =>
      let fired := bStatusFire e.status item.status
      let e₁ := if fired then { e with status := item.status } else e
      let m₁ := if fired then aupdate iid e₁ acc.1 else acc.1
      let du₁ : List BUpdate :=
        if fired then [.status_change item (e.status.getD "") (item.status.getD "")] else []
      let comments := f iid kind
      let lcd := get_latest_comment_date comments
      if bCommentFire e₁.last_comment_date lcd then
        let du₂ : List BUpdate :=
          match bLatestComment comments with
          | some lc => [.new_comment item lc]
          | none => []
        (aupdate iid { e₁ with last_comment_date := lcd } m₁, acc.2.1, acc.2.2 ++ du₁ ++ du₂)
      else (m₁, acc.2.1, acc.2.2 ++ du₁)

/-- The per-item loop of `check_for_updates` over one fetched list. -/
def bFold (f : String → String → List BComment) (kind now : String)
    (acc : SMap BEntry × List BItem × List BUpdate) :
    List BItem → SMap BEntry × List BItem × List BUpdate
  | [] => acc
  | x :: xs => bFold f kind now (bStep f kind now acc x) xs

/-- `TopdeskBrowser.check_for_updates` (topdesk_browser.py lines 484-617):
run the per-item loop for incidents and for changes against the loaded
state, set `last_check = now` and return the four event lists together
with the state that `_save_previous_state` persists. -/
def check_for_updates (src : BSource) (now : String) (prev : BCache) : BResult × BCache :=
  let foldI := bFold src.comments "incident" now (prev.incidents, [], []) src.incidents
  let foldC := bFold src.comments "change" now (prev.changes, [], []) src.changes
  (⟨foldI.2.1, foldI.2.2, foldC.2.1, foldC.2.2⟩, ⟨foldI.1, foldC.1, some now⟩)

/-- A record of the summary report: either the full detail dict built when
the per-id fetch returns a truthy payload, or the degraded
`{id, status, error}` dict built when the fetch raises.  `priority` is
present only for incidents (the change branch builds no such key). -/
inductive SummaryRecord where
  | full (id number subject status last_updated : String) (priority : Option String)
  | degraded (id status errorMsg : String)
deriving DecidableEq

/-- The sort key `x.get("last_updated", "")` of the summary report
(topdesk_utils.py lines 199-200); degraded records have no `last_updated`
key. -/
def recordLastUpdated : SummaryRecord → String
  | .full _ _ _ _ lu _ => lu
  | .degraded _ _ _ => ""

/-- Stable insertion into a descending-sorted list: the new element goes
before the first element with a key not above its own, so earlier list
elements win ties. -/
def insertDesc (r : SummaryRecord) : List SummaryRecord → List SummaryRecord
  | [] => [r]
  | x :: xs =>
    if strLtB (recordLastUpdated r) (recordLastUpdated x) then x :: insertDesc r xs
    else r :: x :: xs

/-- `sorted(records, key=lambda x: x.get("last_updated", ""),
reverse=True)` (topdesk_utils.py lines 199-200): stable descending sort by
the `last_updated` key. -/
def sortByLastUpdatedDesc : List SummaryRecord → List SummaryRecord
  | [] => []
  | x :: xs => insertDesc x (sortByLastUpdatedDesc xs)

/-- The return value of `get_summary_report`. -/
structure UReport where
  incidents : List SummaryRecord
  changes : List SummaryRecord
  last_check : Option String
deriving DecidableEq

/-- The full record built for an incident whose detail fetch returned a
truthy payload (topdesk_utils.py lines 162-169). -/
def fullIncidentRecord (iid : String) (d : UDetails) : SummaryRecord :=
  .full iid (d.number.getD "N/A") (d.subject.getD "N/A") (nameOrUnknown d.status)
    (d.modification_date.getD "Unknown") (some (nameOrUnknown d.priority))

/-- The full record built for a change whose detail fetch returned a
truthy payload (topdesk_utils.py lines 183-189). -/
def fullChangeRecord (cid : String) (d : UDetails) : SummaryRecord :=
  .full cid (d.number.getD "N/A") (d.subject.getD "N/A") (nameOrUnknown d.status)
    (d.modification_date.getD "Unknown") none

/-- The degraded record built when the per-id detail fetch raises
(topdesk_utils.py lines 172-176 / 192-196). -/
def degradedRecord (iid : String) (e : UEntry) : SummaryRecord :=
  .degraded iid e.last_status "Could not retrieve complete details"

/-- `TopdeskTracker.get_summary_report` (topdesk_utils.py lines 152-202):
for every id in the cache mappings, re-fetch the details; a raising fetch
yields the degraded record, a truthy payload the full record, and a falsy
payload (`None`, from an empty response body) nothing at all.  Both lists
are then sorted by `last_updated` descending.  The cache itself is only
read, never written. -/
def get_summary_report (client : UClient) (cache : UCache) : UReport where
  incidents := sortByLastUpdatedDesc <| cache.incidents.filterMap fun p =>
    match client.get_incident_details p.1 with
    | .error _ => some (degradedRecord p.1 p.2)
    | .ok none => none
    | .ok (some d) => some (fullIncidentRecord p.1 d)
  changes := sortByLastUpdatedDesc <| cache.changes.filterMap fun p =>
    match client.get_change_details p.1 with
    | .error _ => some (degradedRecord p.1 p.2)
    | .ok none => none
    | .ok (some d) => some (fullChangeRecord p.1 d)
  last_check := cache.last_check

/-- The truthy ids of a fetched REST item list, in order: the keys the
per-item loop will track. -/
def uKeys (items : List UItem) : List String :=
  items.filterMap fun it => if it.id = "" then none else some it.id

/-- The truthy ids of a fetched browser item list, in order. -/
def bKeys (items : List BItem) : List String :=
  items.filterMap bItemKey

/-- The comment trigger of the REST tracker against a fetched comment
list: `comments[0]` must exist and carry a truthy `creation_date` that
beats the cached value (topdesk_utils.py lines 83-91). -/
def uHeadFire (cached : Option String) (comments : List UComment) : Bool :=
  match comments with
  | [] => false
  | c :: _ =>
    match c.creation_date with
    | none => false
    | some d => newCommentFires cached d

/-- One iteration of the REST per-item loop against a pure comment source;
`uStep` over `UClient.ofPure` computes exactly this. -/
def uStepPure (cf : String → String → List UComment) (kind : String)
    (acc : SMap UEntry × List UItem × List UUpdate) (item : UItem) :
    SMap UEntry × List UItem × List UUpdate :=
  if item.id = "" then acc
  else
    let p1 := uPhase1 acc.1 item
    let p2 := uPhase2 p1.1 item (cf item.id kind)
    (p2.1, acc.2.1 ++ p1.2.1, acc.2.2 ++ p1.2.2 ++ p2.2)

/-- The REST per-item loop against a pure comment source. -/
def uFoldPure (cf : String → String → List UComment) (kind : String)
    (acc : SMap UEntry × List UItem × List UUpdate) :
    List UItem → SMap UEntry × List UItem × List UUpdate
  | [] => acc
  | x :: xs => uFoldPure cf kind (uStepPure cf kind acc x) xs

/-- A REST cache mapping is stable for an item (with respect to a fixed
comment source): the item's id is tracked and neither the status
comparison nor the comment check can fire on it.  One run of the per-item
loop leaves every item it processed in this state. -/
def uStable (cf : String → String → List UComment) (kind : String)
    (m : SMap UEntry) (item : UItem) : Prop :=
  item.id ≠ "" →
    ∃ e, List.lookup item.id m = some e ∧
      uStatusName item = e.last_status ∧
      uHeadFire e.last_comment_date (cf item.id kind) = false

/-- A browser state mapping is stable for an item: the item's key is
tracked and neither the status comparison nor the comment check can fire
on it. -/
def bStable (f : String → String → List BComment) (kind : String)
    (m : SMap BEntry) (item : BItem) : Prop :=
  ∀ i, bItemKey item = some i →
    ∃ e, List.lookup i m = some e ∧
      bStatusFire e.status item.status = false ∧
      bCommentFire e.last_comment_date (get_latest_comment_date (f i kind)) = false

/-- The result of `get_new_activities` against `UClient.ofPure`, which
never fails: the two pure per-item loops, assembled exactly as in
`get_new_activities`. -/
def uRunPure (incs chs : List UItem) (cf : String → String → List UComment)
    (now : String) (c : UCache) : UActivities × UCache :=
  (⟨(uFoldPure cf "incident" (c.incidents, [], []) incs).2.1,
    (uFoldPure cf "incident" (c.incidents, [], []) incs).2.2,
    (uFoldPure cf "change" (c.changes, [], []) chs).2.1,
    (uFoldPure cf "change" (c.changes, [], []) chs).2.2⟩,
   ⟨(uFoldPure cf "incident" (c.incidents, [], []) incs).1,
    (uFoldPure cf "change" (c.changes, [], []) chs).1, some now⟩)
theorem lookup_aupdate_self {α : Type} (k : String) (v : α) (m : SMap α) :
    List.lookup k (aupdate k v m) = some v := by
  induction m with
  | nil => simp [aupdate, List.lookup]
  | cons p rest ih =>
    obtain ⟨k₁, v₁⟩ := p
    by_cases h : k₁ = k
    · simp [aupdate, h, List.lookup]
    · simp [aupdate, h, List.lookup, ih, beq_eq_false_iff_ne.mpr (Ne.symm h)]

theorem lookup_aupdate_of_ne {α : Type} {j k : String} (h : j ≠ k) (v : α) (m : SMap α) :
    List.lookup j (aupdate k v m) = List.lookup j m := by
  induction m with
  | nil => simp [aupdate, List.lookup, beq_eq_false_iff_ne.mpr h]
  | cons p rest ih =>
    obtain ⟨k₁, v₁⟩ := p
    by_cases h₁ : k₁ = k
    · subst h₁
      simp [aupdate, List.lookup, beq_eq_false_iff_ne.mpr h, ih]
    · by_cases h₂ : j = k₁
      · subst h₂
        simp [aupdate, h₁, List.lookup]
      · simp [aupdate, h₁, List.lookup, beq_eq_false_iff_ne.mpr h₂, ih]

theorem lookup_aupdate_isSome {α : Type} (j k : String) (v : α) (m : SMap α) :
    (List.lookup j (aupdate k v m)).isSome =
      (j = k ∨ (List.lookup j m).isSome = true : Prop) := by
  by_cases h : j = k
  · subst h
    simp [lookup_aupdate_self]
  · simp [lookup_aupdate_of_ne h, h]

theorem charListLt_iff (as bs : List Char) : charListLt as bs = true ↔ as < bs := by
  induction as generalizing bs with
  | nil =>
    rcases bs with _ | ⟨b, bs⟩
    · exact iff_of_false (by simp [charListLt]) (by intro h; cases h)
    · exact iff_of_true rfl List.Lex.nil
  | cons a as ih =>
    rcases bs with _ | ⟨b, bs⟩
    · exact iff_of_false (by simp [charListLt]) (by intro h; cases h)
    · by_cases hab : a < b
      · exact iff_of_true (by simp [charListLt, hab]) (List.Lex.rel hab)
      · by_cases hba : b < a
        · refine iff_of_false (by simp [charListLt, hab, hba]) ?_
          intro h
          cases h with
          | cons h₁ => exact absurd hba (lt_irrefl a)
          | rel h₁ => exact hab h₁
        · have heq : a = b := le_antisymm (le_of_not_lt hba) (le_of_not_lt hab)
          subst heq
          rw [show charListLt (a :: as) (a :: bs) = charListLt as bs by
            simp [charListLt, lt_irrefl]]
          rw [ih bs]
          constructor
          · exact fun h => List.Lex.cons h
          · intro h
            cases h with
            | cons h₁ => exact h₁
            | rel h₁ => exact absurd h₁ (lt_irrefl a)

theorem strLtB_iff (a b : String) : strLtB a b = true ↔ a < b := by
  rw [strLtB, String.lt_iff_toList_lt]
  exact charListLt_iff a.data b.data

theorem strLtB_self (d : String) : strLtB d d = false := by
  rw [Bool.eq_false_iff]
  intro h
  exact lt_irrefl d (strLtB_iff d d |>.mp h)

theorem newCommentFires_self (d : String) : newCommentFires (some d) d = false := by
  by_cases h : d = "" <;> simp [newCommentFires, h, strLtB_self]

theorem bStatusFire_self (s : Option String) : bStatusFire s s = false := by
  cases s <;> simp [bStatusFire]

theorem bCommentFire_self (x : Option String) : bCommentFire x x = false := by
  cases x with
  | none => rfl
  | some d => simp [bCommentFire, newCommentFires_self]

theorem uStep_ofPure (incs chs : List UItem) (cf : String → String → List UComment)
    (kind : String) (acc : SMap UEntry × List UItem × List UUpdate) (item : UItem) :
    uStep (UClient.ofPure incs chs cf) kind acc item = .ok (uStepPure cf kind acc item) := by
  by_cases h : item.id = "" <;> simp [uStep, uStepPure, UClient.ofPure, h]

theorem uFold_ofPure (incs chs : List UItem) (cf : String → String → List UComment)
    (kind : String) (acc : SMap UEntry × List UItem × List UUpdate) (items : List UItem) :
    uFold (UClient.ofPure incs chs cf) kind acc items = .ok (uFoldPure cf kind acc items) := by
  induction items generalizing acc with
  | nil => rfl
  | cons x xs ih => simp [uFold, uFoldPure, uStep_ofPure, ih]

theorem get_new_activities_ofPure (incs chs : List UItem)
    (cf : String → String → List UComment) (now : String) (c : UCache) :
    get_new_activities (UClient.ofPure incs chs cf) now c = .ok (uRunPure incs chs cf now c) := by
  have hI := uFold_ofPure incs chs cf "incident" (c.incidents, [], []) incs
  have hC := uFold_ofPure incs chs cf "change" (c.changes, [], []) chs
  simp only [UClient.ofPure] at hI hC ⊢
  simp [get_new_activities, hI, hC, uRunPure]

theorem uKeys_cons (x : UItem) (xs : List UItem) :
    uKeys (x :: xs) = if x.id = "" then uKeys xs else x.id :: uKeys xs := by
  by_cases h : x.id = "" <;> simp [uKeys, h]

theorem uStepPure_skip (cf : String → String → List UComment) (kind : String)
    (acc : SMap UEntry × List UItem × List UUpdate) (item : UItem) (hid : item.id = "") :
    uStepPure cf kind acc item = acc := by
  simp [uStepPure, hid]

theorem uStepPure_new (cf : String → String → List UComment) (kind : String)
    (m : SMap UEntry) (n : List UItem) (u : List UUpdate) (item : UItem)
    (hid : item.id ≠ "") (hm : List.lookup item.id m = none) :
    uStepPure cf kind (m, n, u) item =
      (match cf item.id kind with
       | [] => (aupdate item.id ⟨uStatusName item, none⟩ m, n ++ [item], u)
       | c :: _ =>
         match c.creation_date with
         | none => (aupdate item.id ⟨uStatusName item, none⟩ m, n ++ [item], u)
         | some d =>
           if d = "" then (aupdate item.id ⟨uStatusName item, none⟩ m, n ++ [item], u)
           else
             (aupdate item.id ⟨uStatusName item, some d⟩
                (aupdate item.id ⟨uStatusName item, none⟩ m),
              n ++ [item], u ++ [.new_comment item c])) := by
  rcases hcs : cf item.id kind with _ | ⟨c, rest⟩
  · simp [uStepPure, uPhase1, uPhase2, hid, hm, hcs]
  · rcases hd : c.creation_date with _ | d
    · simp [uStepPure, uPhase1, uPhase2, hid, hm, hcs, hd]
    · by_cases hde : d = ""
      · simp [uStepPure, uPhase1, uPhase2, hid, hm, hcs, hd, hde,
              lookup_aupdate_self, newCommentFires]
      · simp [uStepPure, uPhase1, uPhase2, hid, hm, hcs, hd, hde,
              lookup_aupdate_self, newCommentFires]

theorem uStepPure_known (cf : String → String → List UComment) (kind : String)
    (m : SMap UEntry) (n : List UItem) (u : List UUpdate) (item : UItem) (e : UEntry)
    (hid : item.id ≠ "") (hm : List.lookup item.id m = some e) :
    uStepPure cf kind (m, n, u) item =
      (let e₁ := if uStatusName item = e.last_status then e
                 else { e with last_status := uStatusName item }
       let m₁ := if uStatusName item = e.last_status then m else aupdate item.id e₁ m
       let du₁ : List UUpdate :=
         if uStatusName item = e.last_status then []
         else [.status_change item e.last_status (uStatusName item)]
       match cf item.id kind with
       | [] => (m₁, n, u ++ du₁)
       | c :: _ =>
         match c.creation_date with
         | none => (m₁, n, u ++ du₁)
         | some d =>
           if newCommentFires e.last_comment_date d then
             (aupdate item.id { e₁ with last_comment_date := some d } m₁, n,
              u ++ du₁ ++ [.new_comment item c])
           else (m₁, n, u ++ du₁)) := by
  by_cases hs : uStatusName item = e.last_status
  · rcases hcs : cf item.id kind with _ | ⟨c, rest⟩
    · simp [uStepPure, uPhase1, uPhase2, hid, hm, hcs, hs]
    · rcases hd : c.creation_date with _ | d
      · simp [uStepPure, uPhase1, uPhase2, hid, hm, hcs, hd, hs]
      · by_cases hf : newCommentFires e.last_comment_date d
        · simp [uStepPure, uPhase1, uPhase2, hid, hm, hcs, hd, hs, hf]
        · simp [uStepPure, uPhase1, uPhase2, hid, hm, hcs, hd, hs, hf]
  · rcases hcs : cf item.id kind with _ | ⟨c, rest⟩
    · simp [uStepPure, uPhase1, uPhase2, hid, hm, hcs, hs]
    · rcases hd : c.creation_date with _ | d
      · simp [uStepPure, uPhase1, uPhase2, hid, hm, hcs, hd, hs]
      · by_cases hf : newCommentFires e.last_comment_date d
        · simp [uStepPure, uPhase1, uPhase2, hid, hm, hcs, hd, hs, hf,
                lookup_aupdate_self]
        · simp [uStepPure, uPhase1, uPhase2, hid, hm, hcs, hd, hs, hf,
                lookup_aupdate_self]

theorem uStable_step_id (cf : String → String → List UComment) (kind : String)
    (m : SMap UEntry) (n : List UItem) (u : List UUpdate) (item : UItem)
    (h : uStable cf kind m item) :
    uStepPure cf kind (m, n, u) item = (m, n, u) := by
  by_cases hid : item.id = ""
  · exact uStepPure_skip cf kind (m, n, u) item hid
  · obtain ⟨e, he, hst, hcf⟩ := h hid
    rw [uStepPure_known cf kind m n u item e hid he]
    rcases hcs : cf item.id kind with _ | ⟨c, rest⟩
    · simp [hst]
    · rcases hd : c.creation_date with _ | d
      · simp [hst, hcs, hd]
      · have hnf : newCommentFires e.last_comment_date d = false := by
          have := hcf
          rw [hcs] at this
          simpa [uHeadFire, hd] using this
        simp [hst, hcs, hd, hnf]

theorem uStepPure_lookup_ne (cf : String → String → List UComment) (kind : String)
    (m : SMap UEntry) (n : List UItem) (u : List UUpdate) (item : UItem) (j : String)
    (h : item.id = "" ∨ j ≠ item.id) :
    List.lookup j (uStepPure cf kind (m, n, u) item).1 = List.lookup j m := by
  rcases h with hid | hj
  · rw [uStepPure_skip cf kind (m, n, u) item hid]
  · by_cases hid : item.id = ""
    · rw [uStepPure_skip cf kind (m, n, u) item hid]
    · rcases hm : List.lookup item.id m with _ | e
      · rw [uStepPure_new cf kind m n u item hid hm]
        rcases hcs : cf item.id kind with _ | ⟨c, rest⟩
        · simp [lookup_aupdate_of_ne hj]
        · rcases hd : c.creation_date with _ | d
          · simp [hd, lookup_aupdate_of_ne hj]
          · by_cases hde : d = "" <;> simp [hd, hde, lookup_aupdate_of_ne hj]
      · rw [uStepPure_known cf kind m n u item e hid hm]
        rcases hcs : cf item.id kind with _ | ⟨c, rest⟩
        · by_cases hs : uStatusName item = e.last_status <;>
            simp [hs, lookup_aupdate_of_ne hj]
        · rcases hd : c.creation_date with _ | d
          · by_cases hs : uStatusName item = e.last_status <;>
              simp [hd, hs, lookup_aupdate_of_ne hj]
          · by_cases hs : uStatusName item = e.last_status <;>
              by_cases hf : newCommentFires e.last_comment_date d <;>
                simp [hd, hs, hf, lookup_aupdate_of_ne hj]

theorem uStable_of_lookup_eq (cf : String → String → List UComment) (kind : String)
    (m m' : SMap UEntry) (item : UItem)
    (he : List.lookup item.id m' = List.lookup item.id m)
    (h : uStable cf kind m item) : uStable cf kind m' item := by
  intro hid
  obtain ⟨e, he₁, h₂, h₃⟩ := h hid
  exact ⟨e, he.trans he₁, h₂, h₃⟩

theorem uStable_after_step (cf : String → String → List UComment) (kind : String)
    (m : SMap UEntry) (n : List UItem) (u : List UUpdate) (item : UItem)
    (hid : item.id ≠ "") :
    uStable cf kind (uStepPure cf kind (m, n, u) item).1 item := by
  intro _
  rcases hm : List.lookup item.id m with _ | e
  · rw [uStepPure_new cf kind m n u item hid hm]
    rcases hcs : cf item.id kind with _ | ⟨c, rest⟩
    · exact ⟨⟨uStatusName item, none⟩, by simp [hcs, lookup_aupdate_self], rfl,
        by simp [hcs, uHeadFire]⟩
    · rcases hd : c.creation_date with _ | d
      · exact ⟨⟨uStatusName item, none⟩, by simp [hcs, hd, lookup_aupdate_self], rfl,
          by simp [hcs, uHeadFire, hd]⟩
      · by_cases hde : d = ""
        · refine ⟨⟨uStatusName item, none⟩, by simp [hcs, hd, hde, lookup_aupdate_self], rfl, ?_⟩
          simp [hcs, uHeadFire, hd, hde, newCommentFires]
        · refine ⟨⟨uStatusName item, some d⟩, by simp [hcs, hd, hde, lookup_aupdate_self], rfl, ?_⟩
          simp [hcs, uHeadFire, hd, newCommentFires_self]
  · rw [uStepPure_known cf kind m n u item e hid hm]
    rcases hcs : cf item.id kind with _ | ⟨c, rest⟩
    · by_cases hs : uStatusName item = e.last_status
      · exact ⟨e, by simp [hcs, hs, hm], hs, by simp [hcs, uHeadFire]⟩
      · exact ⟨{ e with last_status := uStatusName item },
          by simp [hcs, hs, lookup_aupdate_self], rfl, by simp [hcs, uHeadFire]⟩
    · rcases hd : c.creation_date with _ | d
      · by_cases hs : uStatusName item = e.last_status
        · exact ⟨e, by simp [hcs, hd, hs, hm], hs, by simp [hcs, uHeadFire, hd]⟩
        · exact ⟨{ e with last_status := uStatusName item },
            by simp [hcs, hd, hs, lookup_aupdate_self], rfl, by simp [hcs, uHeadFire, hd]⟩
      · by_cases hf : newCommentFires e.last_comment_date d
        · by_cases hs : uStatusName item = e.last_status
          · refine ⟨{ e with last_comment_date := some d },
              by simp [hcs, hd, hs, hf, lookup_aupdate_self], hs, ?_⟩
            simp [hcs, uHeadFire, hd, newCommentFires_self]
          · refine ⟨{ last_status := uStatusName item, last_comment_date := some d },
              by simp [hcs, hd, hs, hf, lookup_aupdate_self], rfl, ?_⟩
            simp [hcs, uHeadFire, hd, newCommentFires_self]
        · by_cases hs : uStatusName item = e.last_status
          · exact ⟨e, by simp [hcs, hd, hs, hf, hm], hs, by simp [hcs, uHeadFire, hd, hf]⟩
          · exact ⟨{ e with last_status := uStatusName item },
              by simp [hcs, hd, hs, hf, lookup_aupdate_self], rfl,
              by simp [hcs, uHeadFire, hd, hf]⟩

theorem uFoldPure_lookup_ne (cf : String → String → List UComment) (kind : String)
    (acc : SMap UEntry × List UItem × List UUpdate) (xs : List UItem) (j : String)
    (h : j ∉ uKeys xs) :
    List.lookup j (uFoldPure cf kind acc xs).1 = List.lookup j acc.1 := by
  induction xs generalizing acc with
  | nil => rfl
  | cons x xs ih =>
    rw [uKeys_cons] at h
    by_cases hx : x.id = ""
    · rw [hx] at h
      simp only [if_pos rfl] at h
      obtain ⟨m, n, u⟩ := acc
      rw [uFoldPure, ih _ h, uStepPure_lookup_ne cf kind m n u x j (Or.inl hx)]
    · rw [if_neg hx] at h
      simp only [List.mem_cons, not_or] at h
      obtain ⟨m, n, u⟩ := acc
      rw [uFoldPure, ih _ h.2, uStepPure_lookup_ne cf kind m n u x j (Or.inr h.1)]

theorem uFoldPure_stable (cf : String → String → List UComment) (kind : String)
    (xs : List UItem) (h : (uKeys xs).Nodup) :
    ∀ acc, ∀ x ∈ xs, uStable cf kind (uFoldPure cf kind acc xs).1 x := by
  induction xs with
  | nil => intro acc x hx; cases hx
  | cons y ys ih =>
    intro acc x hx
    have htail : (uKeys ys).Nodup := by
      rw [uKeys_cons] at h
      by_cases hy : y.id = ""
      · rwa [if_pos hy] at h
      · rw [if_neg hy] at h
        exact h.of_cons
    rcases List.mem_cons.mp hx with rfl | hxs
    · by_cases hy : x.id = ""
      · intro hid; exact absurd hy hid
      · have hstep : uStable cf kind (uStepPure cf kind acc x).1 x := by
          obtain ⟨m, n, u⟩ := acc
          exact uStable_after_step cf kind m n u x hy
        have hnot : x.id ∉ uKeys ys := by
          rw [uKeys_cons, if_neg hy] at h
          exact (List.nodup_cons.mp h).1
        refine uStable_of_lookup_eq cf kind _ _ x ?_ hstep
        rw [uFoldPure]
        exact uFoldPure_lookup_ne cf kind _ ys x.id hnot
    · rw [uFoldPure]
      exact ih htail _ x hxs

theorem uFoldPure_id (cf : String → String → List UComment) (kind : String)
    (m : SMap UEntry) (n : List UItem) (u : List UUpdate) (xs : List UItem)
    (h : ∀ x ∈ xs, uStable cf kind m x) :
    uFoldPure cf kind (m, n, u) xs = (m, n, u) := by
  induction xs with
  | nil => rfl
  | cons x xs ih =>
    rw [uFoldPure, uStable_step_id cf kind m n u x (h x (List.mem_cons_self x xs))]
    exact ih fun y hy => h y (List.mem_cons_of_mem x hy)

theorem bKeys_cons (x : BItem) (xs : List BItem) :
    bKeys (x :: xs) =
      match bItemKey x with
      | none => bKeys xs
      | some i => i :: bKeys xs := by
  rcases hbk : bItemKey x with _ | i <;> simp [bKeys, hbk]

theorem bStep_skip (f : String → String → List BComment) (kind now : String)
    (acc : SMap BEntry × List BItem × List BUpdate) (item : BItem)
    (h : bItemKey item = none) :
    bStep f kind now acc item = acc := by
  simp [bStep, h]

theorem bStep_new (f : String → String → List BComment) (kind now : String)
    (m : SMap BEntry) (n : List BItem) (u : List BUpdate) (item : BItem) (iid : String)
    (hk : bItemKey item = some iid) (hm : List.lookup iid m = none) :
    bStep f kind now (m, n, u) item =
      (aupdate iid ⟨item.status, get_latest_comment_date (f iid kind), some now⟩ m,
       n ++ [item], u) := by
  simp [bStep, hk, hm]

theorem bStep_known (f : String → String → List BComment) (kind now : String)
    (m : SMap BEntry) (n : List BItem) (u : List BUpdate) (item : BItem) (iid : String)
    (e : BEntry) (hk : bItemKey item = some iid) (hm : List.lookup iid m = some e) :
    bStep f kind now (m, n, u) item =
      (let e₁ := if bStatusFire e.status item.status then { e with status := item.status } else e
       let m₁ := if bStatusFire e.status item.status then aupdate iid e₁ m else m
       let du₁ : List BUpdate :=
         if bStatusFire e.status item.status then
           [.status_change item (e.status.getD "") (item.status.getD "")]
         else []
       let lcd := get_latest_comment_date (f iid kind)
       if bCommentFire e.last_comment_date lcd then
         let du₂ : List BUpdate :=
           match bLatestComment (f iid kind) with
           | some lc => [.new_comment item lc]
           | none => []
         (aupdate iid { e₁ with last_comment_date := lcd } m₁, n, u ++ du₁ ++ du₂)
       else (m₁, n, u ++ du₁)) := by
  by_cases hsf : bStatusFire e.status item.status <;>
    simp [bStep, hk, hm, hsf]

theorem bStable_step_id (f : String → String → List BComment) (kind now : String)
    (m : SMap BEntry) (n : List BItem) (u : List BUpdate) (item : BItem)
    (h : bStable f kind m item) :
    bStep f kind now (m, n, u) item = (m, n, u) := by
  rcases hk : bItemKey item with _ | iid
  · exact bStep_skip f kind now (m, n, u) item hk
  · obtain ⟨e, he, hsf, hcf⟩ := h iid hk
    rw [bStep_known f kind now m n u item iid e hk he]
    simp [hsf, hcf]

theorem bStep_lookup_ne (f : String → String → List BComment) (kind now : String)
    (m : SMap BEntry) (n : List BItem) (u : List BUpdate) (item : BItem) (j : String)
    (h : bItemKey item ≠ some j) :
    List.lookup j (bStep f kind now (m, n, u) item).1 = List.lookup j m := by
  rcases hk : bItemKey item with _ | iid
  · rw [bStep_skip f kind now (m, n, u) item hk]
  · have hj : j ≠ iid := fun hji => h (hji ▸ hk)
    rcases hm : List.lookup iid m with _ | e
    · rw [bStep_new f kind now m n u item iid hk hm]
      simp [lookup_aupdate_of_ne hj]
    · rw [bStep_known f kind now m n u item iid e hk hm]
      by_cases hsf : bStatusFire e.status item.status <;>
        by_cases hcf : bCommentFire e.last_comment_date
          (get_latest_comment_date (f iid kind)) <;>
          simp [hsf, hcf, lookup_aupdate_of_ne hj]

theorem bStable_of_lookup_eq (f : String → String → List BComment) (kind : String)
    (m m' : SMap BEntry) (item : BItem)
    (he : ∀ i, bItemKey item = some i → List.lookup i m' = List.lookup i m)
    (h : bStable f kind m item) : bStable f kind m' item := by
  intro i hi
  obtain ⟨e, he₁, h₂, h₃⟩ := h i hi
  exact ⟨e, (he i hi).trans he₁, h₂, h₃⟩

theorem bStable_after_step (f : String → String → List BComment) (kind now : String)
    (m : SMap BEntry) (n : List BItem) (u : List BUpdate) (item : BItem) (iid : String)
    (hk : bItemKey item = some iid) :
    bStable f kind (bStep f kind now (m, n, u) item).1 item := by
  intro i hi
  rw [hk] at hi
  cases hi
  rcases hm : List.lookup iid m with _ | e
  · rw [bStep_new f kind now m n u item iid hk hm]
    exact ⟨⟨item.status, get_latest_comment_date (f iid kind), some now⟩,
      by simp [lookup_aupdate_self], bStatusFire_self item.status,
      bCommentFire_self (get_latest_comment_date (f iid kind))⟩
  · rw [bStep_known f kind now m n u item iid e hk hm]
    by_cases hsf : bStatusFire e.status item.status
    · by_cases hcf : bCommentFire e.last_comment_date (get_latest_comment_date (f iid kind))
      · refine ⟨{ status := item.status,
                  last_comment_date := get_latest_comment_date (f iid kind),
                  last_check := e.last_check },
          by simp [hsf, hcf, lookup_aupdate_self], ?_, ?_⟩
        · exact bStatusFire_self item.status
        · exact bCommentFire_self (get_latest_comment_date (f iid kind))
      · refine ⟨{ e with status := item.status },
          by simp [hsf, hcf, lookup_aupdate_self], bStatusFire_self item.status, ?_⟩
        simpa using hcf
    · by_cases hcf : bCommentFire e.last_comment_date (get_latest_comment_date (f iid kind))
      · refine ⟨{ e with last_comment_date := get_latest_comment_date (f iid kind) },
          by simp [hsf, hcf, lookup_aupdate_self], by simpa using hsf, ?_⟩
        exact bCommentFire_self (get_latest_comment_date (f iid kind))
      · exact ⟨e, by simp [hsf, hcf, hm], by simpa using hsf, by simpa using hcf⟩

theorem bFold_lookup_ne (f : String → String → List BComment) (kind now : String)
    (acc : SMap BEntry × List BItem × List BUpdate) (xs : List BItem) (j : String)
    (h : j ∉ bKeys xs) :
    List.lookup j (bFold f kind now acc xs).1 = List.lookup j acc.1 := by
  induction xs generalizing acc with
  | nil => rfl
  | cons x xs ih =>
    rw [bKeys_cons] at h
    obtain ⟨m, n, u⟩ := acc
    rcases hbk : bItemKey x with _ | i
    · rw [hbk] at h
      rw [bFold, ih _ h, bStep_lookup_ne f kind now m n u x j (by rw [hbk]; exact nofun)]
    · rw [hbk] at h
      simp only [List.mem_cons, not_or] at h
      rw [bFold, ih _ h.2, bStep_lookup_ne f kind now m n u x j
        (by rw [hbk]; exact fun hc => h.1 (Option.some.inj hc).symm)]

theorem bFold_stable (f : String → String → List BComment) (kind now : String)
    (xs : List BItem) (h : (bKeys xs).Nodup) :
    ∀ acc, ∀ x ∈ xs, bStable f kind (bFold f kind now acc xs).1 x := by
  induction xs with
  | nil => intro acc x hx; cases hx
  | cons y ys ih =>
    intro acc x hx
    have htail : (bKeys ys).Nodup := by
      rw [bKeys_cons] at h
      rcases hbk : bItemKey y with _ | i
      · rwa [hbk] at h
      · rw [hbk] at h
        exact h.of_cons
    rcases List.mem_cons.mp hx with rfl | hxs
    · rcases hbk : bItemKey x with _ | i
      · intro i hi; rw [hbk] at hi; cases hi
      · have hstep : bStable f kind (bStep f kind now acc x).1 x := by
          obtain ⟨m, n, u⟩ := acc
          exact bStable_after_step f kind now m n u x i hbk
        have hnot : i ∉ bKeys ys := by
          rw [bKeys_cons, hbk] at h
          exact (List.nodup_cons.mp h).1
        refine bStable_of_lookup_eq f kind _ _ x ?_ hstep
        intro i₁ hi₁
        rw [hbk] at hi₁
        cases hi₁
        rw [bFold]
        exact bFold_lookup_ne f kind now _ ys i hnot
    · rw [bFold]
      exact ih htail _ x hxs

theorem bFold_id (f : String → String → List BComment) (kind now : String)
    (m : SMap BEntry) (n : List BItem) (u : List BUpdate) (xs : List BItem)
    (h : ∀ x ∈ xs, bStable f kind m x) :
    bFold f kind now (m, n, u) xs = (m, n, u) := by
  induction xs with
  | nil => rfl
  | cons x xs ih =>
    rw [bFold, bStable_step_id f kind now m n u x (h x (List.mem_cons_self x xs))]
    exact ih fun y hy => h y (List.mem_cons_of_mem x hy)

theorem empty_string_le (s : String) : "" ≤ s := by
  have h : ("" : String).toList ≤ s.toList := List.nil_le
  rwa [← String.le_iff_toList_le] at h

theorem maxString_spec (d : String) (ds : List String) :
    maxString d ds ∈ d :: ds ∧ ∀ x ∈ d :: ds, x ≤ maxString d ds := by
  induction ds generalizing d with
  | nil => simp [maxString]
  | cons y ys ih =>
    have hfold : maxString d (y :: ys) = maxString (if strLtB d y then y else d) ys := rfl
    obtain ⟨hmem, hle⟩ := ih (if strLtB d y then y else d)
    rw [hfold]
    have hd : d ≤ (if strLtB d y then y else d) := by
      by_cases hdy : strLtB d y = true
      · rw [if_pos hdy]; exact le_of_lt (strLtB_iff d y |>.mp hdy)
      · rw [if_neg hdy]
    have hy : y ≤ (if strLtB d y then y else d) := by
      by_cases hdy : strLtB d y = true
      · rw [if_pos hdy]
      · rw [if_neg hdy]
        exact le_of_not_lt fun hlt => hdy (strLtB_iff d y |>.mpr hlt)
    have hhead : (if strLtB d y then y else d) ≤ maxString (if strLtB d y then y else d) ys :=
      hle _ (List.mem_cons_self _ _)
    constructor
    · rcases List.mem_cons.mp hmem with h₁ | h₁
      · by_cases hdy : strLtB d y = true
        · rw [h₁, if_pos hdy]
          exact List.mem_cons_of_mem _ (List.mem_cons_self _ _)
        · rw [h₁, if_neg hdy]
          exact List.mem_cons_self _ _
      · exact List.mem_cons_of_mem _ (List.mem_cons_of_mem _ h₁)
    · intro x hx
      rcases List.mem_cons.mp hx with rfl | hx₁
      · exact le_trans hd hhead
      · rcases List.mem_cons.mp hx₁ with rfl | hx₂
        · exact le_trans hy hhead
        · exact hle x (List.mem_cons_of_mem _ hx₂)

theorem mem_bDates (cs : List BComment) (x : String) (h : x ∈ bDates cs) :
    x ≠ "" ∧ ∃ c ∈ cs, c.creation_date = some x := by
  rw [bDates, List.mem_filterMap] at h
  obtain ⟨c, hc, hcx⟩ := h
  rcases hd : c.creation_date with _ | s
  · simp [hd] at hcx
  · by_cases hs : s = ""
    · simp [hd, hs] at hcx
    · simp [hd, hs] at hcx
      cases hcx
      exact ⟨hs, c, hc, hd⟩

theorem bDates_mem (cs : List BComment) (c : BComment) (d : String)
    (hc : c ∈ cs) (hd : c.creation_date = some d) (hne : d ≠ "") : d ∈ bDates cs := by
  rw [bDates, List.mem_filterMap]
  exact ⟨c, hc, by simp [hd, hne]⟩

theorem get_latest_comment_date_spec (cs : List BComment) (d : String)
    (h : get_latest_comment_date cs = some d) :
    d ∈ bDates cs ∧ ∀ x ∈ bDates cs, x ≤ d := by
  rcases cs with _ | ⟨c, rest⟩
  · cases h
  · rcases hbd : bDates (c :: rest) with _ | ⟨d₀, ds⟩
    · simp [get_latest_comment_date, hbd] at h
    · simp [get_latest_comment_date, hbd] at h
      rw [← h]
      exact maxString_spec d₀ ds

theorem get_latest_comment_date_isSome (cs : List BComment) (h : bDates cs ≠ []) :
    ∃ d, get_latest_comment_date cs = some d := by
  rcases cs with _ | ⟨c, rest⟩
  · exact absurd rfl h
  · rcases hbd : bDates (c :: rest) with _ | ⟨d₀, ds⟩
    · exact absurd hbd h
    · exact ⟨maxString d₀ ds, by simp [get_latest_comment_date, hbd]⟩

theorem get_latest_comment_date_empty : get_latest_comment_date [] = none := rfl

theorem bCommentKey_cases (cs : List BComment) (c : BComment) (hc : c ∈ cs) :
    bCommentKey c = "" ∨ bCommentKey c ∈ bDates cs := by
  rcases hd : c.creation_date with _ | s
  · left; simp [bCommentKey, hd]
  · by_cases hs : s = ""
    · left; simp [bCommentKey, hd, hs]
    · right
      have : bCommentKey c = s := by simp [bCommentKey, hd]
      rw [this]
      exact bDates_mem cs c s hc hd hs

theorem bFoldMax_spec (c : BComment) (rest : List BComment) :
    (rest.foldl (fun a b => if strLtB (bCommentKey a) (bCommentKey b) then b else a) c) ∈ c :: rest ∧
      ∀ x ∈ c :: rest,
        bCommentKey x ≤
          bCommentKey (rest.foldl (fun a b => if strLtB (bCommentKey a) (bCommentKey b) then b else a) c) := by
  induction rest generalizing c with
  | nil => simp
  | cons y ys ih =>
    have hfold :
        (y :: ys).foldl (fun a b => if strLtB (bCommentKey a) (bCommentKey b) then b else a) c =
          ys.foldl (fun a b => if strLtB (bCommentKey a) (bCommentKey b) then b else a)
            (if strLtB (bCommentKey c) (bCommentKey y) then y else c) := rfl
    obtain ⟨hmem, hle⟩ := ih (if strLtB (bCommentKey c) (bCommentKey y) then y else c)
    rw [hfold]
    have hc : bCommentKey c ≤
        bCommentKey (if strLtB (bCommentKey c) (bCommentKey y) then y else c) := by
      by_cases hcy : strLtB (bCommentKey c) (bCommentKey y) = true
      · rw [if_pos hcy]; exact le_of_lt (strLtB_iff _ _ |>.mp hcy)
      · rw [if_neg hcy]
    have hy : bCommentKey y ≤
        bCommentKey (if strLtB (bCommentKey c) (bCommentKey y) then y else c) := by
      by_cases hcy : strLtB (bCommentKey c) (bCommentKey y) = true
      · rw [if_pos hcy]
      · rw [if_neg hcy]
        exact le_of_not_lt fun hlt => hcy (strLtB_iff _ _ |>.mpr hlt)
    have hhead := hle _ (List.mem_cons_self _ _)
    constructor
    · rcases List.mem_cons.mp hmem with h₁ | h₁
      · by_cases hcy : strLtB (bCommentKey c) (bCommentKey y) = true
        · rw [h₁, if_pos hcy]
          exact List.mem_cons_of_mem _ (List.mem_cons_self _ _)
        · rw [h₁, if_neg hcy]
          exact List.mem_cons_self _ _
      · exact List.mem_cons_of_mem _ (List.mem_cons_of_mem _ h₁)
    · intro x hx
      rcases List.mem_cons.mp hx with rfl | hx₁
      · exact le_trans hc hhead
      · rcases List.mem_cons.mp hx₁ with rfl | hx₂
        · exact le_trans hy hhead
        · exact hle x (List.mem_cons_of_mem _ hx₂)

theorem bLatestComment_key (cs : List BComment) (d : String)
    (h : get_latest_comment_date cs = some d) :
    ∃ lc, bLatestComment cs = some lc ∧ lc.creation_date = some d := by
  obtain ⟨hdmem, hdmax⟩ := get_latest_comment_date_spec cs d h
  obtain ⟨hdne, cd, hcd, hcdate⟩ := mem_bDates cs d hdmem
  rcases cs with _ | ⟨c, rest⟩
  · cases hcd
  · set r := rest.foldl (fun a b => if strLtB (bCommentKey a) (bCommentKey b) then b else a) c with hr
    obtain ⟨hrmem, hrle⟩ := bFoldMax_spec c rest
    refine ⟨r, rfl, ?_⟩
    have hdr : d ≤ bCommentKey r := by
      have := hrle cd hcd
      rwa [show bCommentKey cd = d by simp [bCommentKey, hcdate]] at this
    have hrd : bCommentKey r ≤ d := by
      rcases bCommentKey_cases (c :: rest) r hrmem with h₁ | h₁
      · rw [h₁]; exact empty_string_le d
      · exact hdmax _ h₁
    have hkey : bCommentKey r = d := le_antisymm hrd hdr
    rcases hcr : r.creation_date with _ | s
    · have hkey2 : ("" : String) = d := by
        rw [← hkey]
        simp [bCommentKey, hcr]
      exact absurd hkey2.symm hdne
    · have hkey2 : s = d := by
        rw [← hkey]
        simp [bCommentKey, hcr]
      rw [hkey2]

theorem insertDesc_perm (r : SummaryRecord) (l : List SummaryRecord) :
    (insertDesc r l).Perm (r :: l) := by
  induction l with
  | nil => exact List.Perm.refl _
  | cons x xs ih =>
    by_cases h : strLtB (recordLastUpdated r) (recordLastUpdated x) = true
    · rw [insertDesc, if_pos h]
      exact (ih.cons x).trans (List.Perm.swap r x xs)
    · rw [insertDesc, if_neg h]

theorem sortByLastUpdatedDesc_perm (l : List SummaryRecord) :
    (sortByLastUpdatedDesc l).Perm l := by
  induction l with
  | nil => exact List.Perm.refl _
  | cons x xs ih =>
    rw [sortByLastUpdatedDesc]
    exact (insertDesc_perm x (sortByLastUpdatedDesc xs)).trans (ih.cons x)

theorem uPhase1_domain (m : SMap UEntry) (item : UItem) (j : String) :
    (List.lookup j (uPhase1 m item).1).isSome = true ↔
      (List.lookup j m).isSome = true ∨ j = item.id := by
  rcases hm : List.lookup item.id m with _ | e
  · simp only [uPhase1, hm]
    rw [lookup_aupdate_isSome]
    tauto
  · simp only [uPhase1, hm]
    by_cases hs : uStatusName item = e.last_status
    · rw [if_pos hs]
      constructor
      · exact Or.inl
      · rintro (h | rfl)
        · exact h
        · simp [hm]
    · rw [if_neg hs]
      simp only []
      rw [lookup_aupdate_isSome]
      tauto

theorem uPhase2_domain (m : SMap UEntry) (item : UItem) (cs : List UComment) (j : String) :
    (List.lookup j (uPhase2 m item cs).1).isSome = true ↔
      (List.lookup j m).isSome = true := by
  rcases cs with _ | ⟨c, rest⟩
  · rw [uPhase2]
  · rcases hd : c.creation_date with _ | d
    · simp only [uPhase2, hd]
    · rcases hm : List.lookup item.id m with _ | e
      · simp only [uPhase2, hd, hm]
      · simp only [uPhase2, hd, hm]
        by_cases hf : newCommentFires e.last_comment_date d
        · rw [if_pos hf]
          simp only []
          rw [lookup_aupdate_isSome]
          constructor
          · rintro (rfl | h)
            · simp [hm]
            · exact h
          · exact Or.inr
        · rw [if_neg hf]

theorem uStep_domain (client : UClient) (kind : String) (m : SMap UEntry)
    (n : List UItem) (u : List UUpdate) (item : UItem)
    (acc₁ : SMap UEntry × List UItem × List UUpdate)
    (h : uStep client kind (m, n, u) item = .ok acc₁) (j : String) :
    (List.lookup j acc₁.1).isSome = true ↔
      (List.lookup j m).isSome = true ∨ (item.id ≠ "" ∧ j = item.id) := by
  by_cases hid : item.id = ""
  · rw [uStep, if_pos hid] at h
    cases h
    simp [hid]
  · rw [uStep, if_neg hid] at h
    rcases hcs : client.get_comments item.id kind with _ | comments
    · rw [hcs] at h; cases h
    · rw [hcs] at h
      cases h
      rw [uPhase2_domain, uPhase1_domain]
      simp [hid]

theorem uFold_domain (client : UClient) (kind : String)
    (acc acc₁ : SMap UEntry × List UItem × List UUpdate) (xs : List UItem)
    (h : uFold client kind acc xs = .ok acc₁) (j : String) :
    (List.lookup j acc₁.1).isSome = true ↔
      (List.lookup j acc.1).isSome = true ∨ j ∈ uKeys xs := by
  induction xs generalizing acc with
  | nil =>
    rw [uFold] at h
    cases h
    simp [uKeys]
  | cons x xs ih =>
    rw [uFold] at h
    rcases hstep : uStep client kind acc x with _ | acc₂
    · rw [hstep] at h; cases h
    · rw [hstep] at h
      obtain ⟨m, n, u⟩ := acc
      rw [ih _ h, uStep_domain client kind m n u x acc₂ hstep j, uKeys_cons]
      by_cases hx : x.id = "" <;> simp [hx] <;> tauto

theorem bStep_domain (f : String → String → List BComment) (kind now : String)
    (m : SMap BEntry) (n : List BItem) (u : List BUpdate) (item : BItem) (j : String) :
    (List.lookup j (bStep f kind now (m, n, u) item).1).isSome = true ↔
      (List.lookup j m).isSome = true ∨ bItemKey item = some j := by
  rcases hk : bItemKey item with _ | iid
  · rw [bStep_skip f kind now (m, n, u) item hk]
    simp
  · by_cases hj : j = iid
    · subst hj
      rcases hm : List.lookup j m with _ | e
      · rw [bStep_new f kind now m n u item j hk hm]
        simp [lookup_aupdate_self, hk]
      · rw [bStep_known f kind now m n u item j e hk hm]
        by_cases hsf : bStatusFire e.status item.status <;>
          by_cases hcf : bCommentFire e.last_comment_date
            (get_latest_comment_date (f j kind)) <;>
            simp [hsf, hcf, lookup_aupdate_self, hm, hk]
    · rw [bStep_lookup_ne f kind now m n u item j
        (by rw [hk]; exact fun hc => hj (Option.some.inj hc).symm)]
      simp [hk, Ne.symm hj]

theorem bFold_domain (f : String → String → List BComment) (kind now : String)
    (acc : SMap BEntry × List BItem × List BUpdate) (xs : List BItem) (j : String) :
    (List.lookup j (bFold f kind now acc xs).1).isSome = true ↔
      (List.lookup j acc.1).isSome = true ∨ j ∈ bKeys xs := by
  induction xs generalizing acc with
  | nil => simp [bFold, bKeys]
  | cons x xs ih =>
    obtain ⟨m, n, u⟩ := acc
    rw [bFold, ih _, bStep_domain f kind now m n u x j, bKeys_cons]
    rcases hk : bItemKey x with _ | i <;> simp [hk] <;> tauto

/-- C4 (amended): the snapshot load operation returns the empty snapshot
`{incidents: {}, changes: {}, lastCheckTimestamp: null}` and never raises
when the persisted location is absent, unreadable, or its content is not
parseable as JSON; content that parses as JSON is returned verbatim, even
when it is not a well-formed snapshot document. -/
theorem C4_load_recovers_empty :
    load_cache .absent = emptySnapshotJson ∧
    load_cache .unreadable = emptySnapshotJson ∧
    load_cache (.content none) = emptySnapshotJson ∧
    ∀ j : Json, load_cache (.content (some j)) = j :=
  ⟨rfl, rfl, rfl, fun _ => rfl⟩

/-- C4 counterexample: a persisted file whose content is the JSON document
`[]` contains malformed data (it is not a well-formed snapshot document),
yet `_load_cache` returns that parsed value as is, not the empty snapshot;
the claim as stated is false at this input. -/
theorem C4_counterexample :
    specSnapshotJson (Json.arr []) = false ∧
    load_cache (.content (some (Json.arr []))) = Json.arr [] ∧
    load_cache (.content (some (Json.arr []))) ≠ emptySnapshotJson :=
  ⟨rfl, rfl, fun h => Json.noConfusion h⟩

/-- C5: one `check-updates` run of the REST tracker either completes -
returning the four event lists and persisting the mutated cache whose
`last_check` is unconditionally the current timestamp - or some client
call fails (aborting the process before `_save_cache`), leaving the
persisted cache unchanged. -/
theorem C5_atomic_persistence (client : UClient) (now : String) (persisted : UCache) :
    (∃ r c, get_new_activities client now persisted = .ok (r, c) ∧
        persistedAfterRun client now persisted = c ∧ c.last_check = some now) ∨
    (get_new_activities client now persisted = .error () ∧
        persistedAfterRun client now persisted = persisted) := by
  rcases h₁ : client.get_my_incidents with e | incs
  · right
    cases e
    exact ⟨by simp [get_new_activities, h₁], by simp [persistedAfterRun, get_new_activities, h₁]⟩
  · rcases h₂ : client.get_my_changes with e | chs
    · right
      cases e
      exact ⟨by simp [get_new_activities, h₁, h₂],
        by simp [persistedAfterRun, get_new_activities, h₁, h₂]⟩
    · rcases h₃ : uFold client "incident" (persisted.incidents, [], []) incs with e | accI
      · right
        cases e
        exact ⟨by simp [get_new_activities, h₁, h₂, h₃],
          by simp [persistedAfterRun, get_new_activities, h₁, h₂, h₃]⟩
      · rcases h₄ : uFold client "change" (persisted.changes, [], []) chs with e | accC
        · right
          cases e
          exact ⟨by simp [get_new_activities, h₁, h₂, h₃, h₄],
            by simp [persistedAfterRun, get_new_activities, h₁, h₂, h₃, h₄]⟩
        · left
          exact ⟨⟨accI.2.1, accI.2.2, accC.2.1, accC.2.2⟩, ⟨accI.1, accC.1, some now⟩,
            by simp [get_new_activities, h₁, h₂, h₃, h₄],
            by simp [persistedAfterRun, get_new_activities, h₁, h₂, h₃, h₄], rfl⟩

theorem get_new_activities_ok (client : UClient) (now : String) (c : UCache)
    (r : UActivities) (c₂ : UCache)
    (h : get_new_activities client now c = .ok (r, c₂)) :
    ∃ incs chs accI accC,
      client.get_my_incidents = .ok incs ∧ client.get_my_changes = .ok chs ∧
      uFold client "incident" (c.incidents, [], []) incs = .ok accI ∧
      uFold client "change" (c.changes, [], []) chs = .ok accC ∧
      r = ⟨accI.2.1, accI.2.2, accC.2.1, accC.2.2⟩ ∧
      c₂ = ⟨accI.1, accC.1, some now⟩ := by
  rcases h₁ : client.get_my_incidents with e | incs
  · simp [get_new_activities, h₁] at h
  · rcases h₂ : client.get_my_changes with e | chs
    · simp [get_new_activities, h₁, h₂] at h
    · rcases h₃ : uFold client "incident" (c.incidents, [], []) incs with e | accI
      · simp [get_new_activities, h₁, h₂, h₃] at h
      · rcases h₄ : uFold client "change" (c.changes, [], []) chs with e | accC
        · simp [get_new_activities, h₁, h₂, h₃, h₄] at h
        · simp only [get_new_activities, h₁, h₂, h₃, h₄, Except.ok.injEq, Prod.mk.injEq] at h
          exact ⟨incs, chs, accI, accC, rfl, rfl, h₃, h₄, h.1.symm, h.2.symm⟩

/-- C8: the snapshot mappings grow monotonically in both trackers: after
one run, an id is tracked exactly when it was already tracked before or
appears (with a truthy id) in the corresponding fetched list - entries are
created on first sighting and never deleted.  (`get_summary_report` only
reads the cache: in the model its type has no cache output at all.) -/
theorem C8_monotone_mappings :
    (∀ (src : BSource) (now : String) (prev : BCache) (i : String),
      ((List.lookup i (check_for_updates src now prev).2.incidents).isSome = true ↔
        (List.lookup i prev.incidents).isSome = true ∨ i ∈ bKeys src.incidents) ∧
      ((List.lookup i (check_for_updates src now prev).2.changes).isSome = true ↔
        (List.lookup i prev.changes).isSome = true ∨ i ∈ bKeys src.changes)) ∧
    (∀ (client : UClient) (now : String) (c : UCache) (incs chs : List UItem)
        (r : UActivities) (c₂ : UCache),
      client.get_my_incidents = .ok incs → client.get_my_changes = .ok chs →
      get_new_activities client now c = .ok (r, c₂) →
      ∀ i : String,
        ((List.lookup i c₂.incidents).isSome = true ↔
          (List.lookup i c.incidents).isSome = true ∨ i ∈ uKeys incs) ∧
        ((List.lookup i c₂.changes).isSome = true ↔
          (List.lookup i c.changes).isSome = true ∨ i ∈ uKeys chs)) := by
  constructor
  · intro src now prev i
    exact ⟨bFold_domain src.comments "incident" now (prev.incidents, [], []) src.incidents i,
      bFold_domain src.comments "change" now (prev.changes, [], []) src.changes i⟩
  · intro client now c incs chs r c₂ h₁ h₂ h i
    obtain ⟨incs₁, chs₁, accI, accC, g₁, g₂, g₃, g₄, _, gc⟩ :=
      get_new_activities_ok client now c r c₂ h
    rw [h₁] at g₁
    rw [h₂] at g₂
    cases Except.ok.inj g₁
    cases Except.ok.inj g₂
    subst gc
    exact ⟨uFold_domain client "incident" _ accI incs g₃ i,
      uFold_domain client "change" _ accC chs g₄ i⟩

/-- C8 witness: concrete instance - one previously tracked incident id
stays tracked, and the one fetched id becomes tracked, in the REST
tracker. -/
theorem C8_monotone_mappings_witness :
    ((UClient.ofPure [⟨"I2", .name "open"⟩] [] fun _ _ => []).get_my_incidents =
        .ok [⟨"I2", .name "open"⟩] ∧
      (UClient.ofPure [⟨"I2", .name "open"⟩] [] fun _ _ => []).get_my_changes = .ok [] ∧
      get_new_activities (UClient.ofPure [⟨"I2", .name "open"⟩] [] fun _ _ => []) "t1"
          ⟨[("I1", ⟨"open", none⟩)], [], none⟩ =
        .ok (⟨[⟨"I2", .name "open"⟩], [], [], []⟩,
          ⟨[("I1", ⟨"open", none⟩), ("I2", ⟨"open", none⟩)], [], some "t1"⟩)) ∧
    (((List.lookup "I1"
          (⟨[("I1", ⟨"open", none⟩), ("I2", ⟨"open", none⟩)], [], some "t1"⟩ : UCache).incidents).isSome =
            true ↔
        (List.lookup "I1" (⟨[("I1", ⟨"open", none⟩)], [], none⟩ : UCache).incidents).isSome = true ∨
          "I1" ∈ uKeys [⟨"I2", .name "open"⟩]) ∧
      ((List.lookup "I1"
          (⟨[("I1", ⟨"open", none⟩), ("I2", ⟨"open", none⟩)], [], some "t1"⟩ : UCache).changes).isSome =
            true ↔
        (List.lookup "I1" (⟨[("I1", ⟨"open", none⟩)], [], none⟩ : UCache).changes).isSome = true ∨
          "I1" ∈ uKeys [])) := by
  refine ⟨⟨rfl, rfl, rfl⟩, ?_⟩
  exact C8_monotone_mappings.2 (UClient.ofPure [⟨"I2", .name "open"⟩] [] fun _ _ => []) "t1"
    ⟨[("I1", ⟨"open", none⟩)], [], none⟩ [⟨"I2", .name "open"⟩] []
    ⟨[⟨"I2", .name "open"⟩], [], [], []⟩
    ⟨[("I1", ⟨"open", none⟩), ("I2", ⟨"open", none⟩)], [], some "t1"⟩ rfl rfl rfl "I1"

theorem check_for_updates_def (src : BSource) (now : String) (prev : BCache) :
    check_for_updates src now prev =
      (⟨(bFold src.comments "incident" now (prev.incidents, [], []) src.incidents).2.1,
        (bFold src.comments "incident" now (prev.incidents, [], []) src.incidents).2.2,
        (bFold src.comments "change" now (prev.changes, [], []) src.changes).2.1,
        (bFold src.comments "change" now (prev.changes, [], []) src.changes).2.2⟩,
       ⟨(bFold src.comments "incident" now (prev.incidents, [], []) src.incidents).1,
        (bFold src.comments "change" now (prev.changes, [], []) src.changes).1, some now⟩) :=
  rfl

/-- C3 (amended): provided no id occurs twice among the truthy ids of a
fetched item list, running check-for-updates twice in succession against a
fixed source yields zero events of every kind on the second run, in both
trackers.  (With a duplicated id carrying two different statuses both
trackers keep emitting StatusChanged events on every run; see the
counterexample.) -/
theorem C3_second_run_silent :
    (∀ (src : BSource) (now₁ now₂ : String) (prev : BCache),
      (bKeys src.incidents).Nodup → (bKeys src.changes).Nodup →
      (check_for_updates src now₂ (check_for_updates src now₁ prev).2).1 =
        ⟨[], [], [], []⟩) ∧
    (∀ (incs chs : List UItem) (cf : String → String → List UComment)
        (now₁ now₂ : String) (c₀ : UCache) (r₁ : UActivities) (c₁ : UCache),
      (uKeys incs).Nodup → (uKeys chs).Nodup →
      get_new_activities (UClient.ofPure incs chs cf) now₁ c₀ = .ok (r₁, c₁) →
      get_new_activities (UClient.ofPure incs chs cf) now₂ c₁ =
        .ok (⟨[], [], [], []⟩, ⟨c₁.incidents, c₁.changes, some now₂⟩)) := by
  constructor
  · intro src now₁ now₂ prev hnI hnC
    have hsI := bFold_stable src.comments "incident" now₁ src.incidents hnI
      (prev.incidents, [], [])
    have hsC := bFold_stable src.comments "change" now₁ src.changes hnC
      (prev.changes, [], [])
    have hI := bFold_id src.comments "incident" now₂
      (bFold src.comments "incident" now₁ (prev.incidents, [], []) src.incidents).1 [] []
      src.incidents hsI
    have hC := bFold_id src.comments "change" now₂
      (bFold src.comments "change" now₁ (prev.changes, [], []) src.changes).1 [] []
      src.changes hsC
    rw [check_for_updates_def, check_for_updates_def]
    simp only []
    rw [hI, hC]
  · intro incs chs cf now₁ now₂ c₀ r₁ c₁ hnI hnC hrun
    rw [get_new_activities_ofPure] at hrun
    have hpair := Except.ok.inj hrun
    rw [Prod.ext_iff] at hpair
    have hc₁ := hpair.2
    have hsI := uFoldPure_stable cf "incident" incs hnI (c₀.incidents, [], [])
    have hsC := uFoldPure_stable cf "change" chs hnC (c₀.changes, [], [])
    subst hc₁
    rw [get_new_activities_ofPure]
    simp only [uRunPure]
    rw [uFoldPure_id cf "incident" _ [] [] incs hsI, uFoldPure_id cf "change" _ [] [] chs hsC]

/-- C3 counterexample: a fixed source listing the id I1 twice, once with
status name a and once with status name b.  The first run warms the
snapshot, yet the second run (and every later one) still emits two
StatusChanged events: the claim as stated is false for this source. -/
theorem C3_counterexample :
    get_new_activities
        (UClient.ofPure [⟨"I1", .name "a"⟩, ⟨"I1", .name "b"⟩] [] fun _ _ => [])
        "t1" ⟨[], [], none⟩ =
      .ok (⟨[⟨"I1", .name "a"⟩], [.status_change ⟨"I1", .name "b"⟩ "a" "b"], [], []⟩,
           ⟨[("I1", ⟨"b", none⟩)], [], some "t1"⟩) ∧
    get_new_activities
        (UClient.ofPure [⟨"I1", .name "a"⟩, ⟨"I1", .name "b"⟩] [] fun _ _ => [])
        "t2" ⟨[("I1", ⟨"b", none⟩)], [], some "t1"⟩ =
      .ok (⟨[],
            [.status_change ⟨"I1", .name "a"⟩ "b" "a",
             .status_change ⟨"I1", .name "b"⟩ "a" "b"], [], []⟩,
           ⟨[("I1", ⟨"b", none⟩)], [], some "t2"⟩) :=
  ⟨rfl, rfl⟩

/-- C3 witness: concrete instance of the amended idempotence - one
incident in each tracker, second run yields the empty event set. -/
theorem C3_second_run_silent_witness :
    ((bKeys [(⟨some "I1", some "open"⟩ : BItem)]).Nodup ∧
      (bKeys ([] : List BItem)).Nodup ∧
      (check_for_updates ⟨[⟨some "I1", some "open"⟩], [], fun _ _ => []⟩ "t2"
          (check_for_updates ⟨[⟨some "I1", some "open"⟩], [], fun _ _ => []⟩ "t1"
            ⟨[], [], none⟩).2).1 = ⟨[], [], [], []⟩) ∧
    ((uKeys [(⟨"I1", .name "open"⟩ : UItem)]).Nodup ∧ (uKeys ([] : List UItem)).Nodup ∧
      get_new_activities (UClient.ofPure [⟨"I1", .name "open"⟩] [] fun _ _ => []) "t1"
          ⟨[], [], none⟩ =
        .ok (⟨[⟨"I1", .name "open"⟩], [], [], []⟩,
             ⟨[("I1", ⟨"open", none⟩)], [], some "t1"⟩) ∧
      get_new_activities (UClient.ofPure [⟨"I1", .name "open"⟩] [] fun _ _ => []) "t2"
          ⟨[("I1", ⟨"open", none⟩)], [], some "t1"⟩ =
        .ok (⟨[], [], [], []⟩,
             ⟨(⟨[("I1", ⟨"open", none⟩)], [], some "t1"⟩ : UCache).incidents,
              (⟨[("I1", ⟨"open", none⟩)], [], some "t1"⟩ : UCache).changes, some "t2"⟩)) := by
  constructor
  · exact ⟨by decide, by decide,
      C3_second_run_silent.1 ⟨[⟨some "I1", some "open"⟩], [], fun _ _ => []⟩ "t1" "t2"
        ⟨[], [], none⟩ (by decide) (by decide)⟩
  · exact ⟨by decide, by decide, rfl,
      C3_second_run_silent.2 [⟨"I1", .name "open"⟩] [] (fun _ _ => []) "t1" "t2"
        ⟨[], [], none⟩ ⟨[⟨"I1", .name "open"⟩], [], [], []⟩
        ⟨[("I1", ⟨"open", none⟩)], [], some "t1"⟩ (by decide) (by decide) rfl⟩

theorem bFold_singleton (f : String → String → List BComment) (kind now : String)
    (acc : SMap BEntry × List BItem × List BUpdate) (x : BItem) :
    bFold f kind now acc [x] = bStep f kind now acc x := rfl

theorem uFoldPure_singleton (cf : String → String → List UComment) (kind : String)
    (acc : SMap UEntry × List UItem × List UUpdate) (x : UItem) :
    uFoldPure cf kind acc [x] = uStepPure cf kind acc x := rfl

/-- C1 (amended): a fetched item whose id is absent from the snapshot
mapping yields exactly one NewItem event.  In the browser tracker the
claim holds as stated: no updated-item event is emitted for it and the new
entry's `last_comment_date` is the latest fetched comment's date (null if
none).  In the REST tracker the comment check also runs for the brand-new
item: never a StatusChanged, but when the first fetched comment carries a
truthy date a NewComment event is additionally emitted in the same cycle,
and the entry's `last_comment_date` becomes that first comment's date
(null otherwise). -/
theorem C1_new_item_events :
    (∀ (item : BItem) (chs : List BItem) (f : String → String → List BComment)
        (now : String) (prev : BCache) (iid : String),
      bItemKey item = some iid →
      List.lookup iid prev.incidents = none →
      (check_for_updates ⟨[item], chs, f⟩ now prev).1.new_incidents = [item] ∧
      (check_for_updates ⟨[item], chs, f⟩ now prev).1.updated_incidents = [] ∧
      List.lookup iid (check_for_updates ⟨[item], chs, f⟩ now prev).2.incidents =
        some ⟨item.status, get_latest_comment_date (f iid "incident"), some now⟩) ∧
    (∀ (item : UItem) (chs : List UItem) (cf : String → String → List UComment)
        (now : String) (c₀ : UCache),
      item.id ≠ "" →
      List.lookup item.id c₀.incidents = none →
      ∃ r c₁, get_new_activities (UClient.ofPure [item] chs cf) now c₀ = .ok (r, c₁) ∧
        r.new_incidents = [item] ∧
        (∀ upd ∈ r.updated_incidents, upd.isStatusChange = false) ∧
        (match cf item.id "incident" with
         | [] =>
           r.updated_incidents = [] ∧
             List.lookup item.id c₁.incidents = some ⟨uStatusName item, none⟩
         | c :: _ =>
           match c.creation_date with
           | none =>
             r.updated_incidents = [] ∧
               List.lookup item.id c₁.incidents = some ⟨uStatusName item, none⟩
           | some d =>
             if d = "" then
               r.updated_incidents = [] ∧
                 List.lookup item.id c₁.incidents = some ⟨uStatusName item, none⟩
             else
               r.updated_incidents = [.new_comment item c] ∧
                 List.lookup item.id c₁.incidents = some ⟨uStatusName item, some d⟩)) := by
  constructor
  · intro item chs f now prev iid hk hm
    rw [check_for_updates_def]
    simp only [bFold_singleton]
    rw [bStep_new f "incident" now prev.incidents [] [] item iid hk hm]
    exact ⟨rfl, rfl, lookup_aupdate_self iid _ prev.incidents⟩
  · intro item chs cf now c₀ hid hm
    refine ⟨(uRunPure [item] chs cf now c₀).1, (uRunPure [item] chs cf now c₀).2,
      get_new_activities_ofPure [item] chs cf now c₀, ?_, ?_, ?_⟩ <;>
      simp only [uRunPure, uFoldPure_singleton,
        uStepPure_new cf "incident" c₀.incidents [] [] item hid hm]
    · rcases hcs : cf item.id "incident" with _ | ⟨c, rest⟩
      · simp
      · rcases hd : c.creation_date with _ | d
        · simp [hd]
        · by_cases hde : d = "" <;> simp [hd, hde]
    · intro upd hupd
      rcases hcs : cf item.id "incident" with _ | ⟨c, rest⟩
      · simp [hcs] at hupd
      · rcases hd : c.creation_date with _ | d
        · simp [hcs, hd] at hupd
        · by_cases hde : d = ""
          · simp [hcs, hd, hde] at hupd
          · simp [hcs, hd, hde] at hupd
            rw [hupd]
            rfl
    · rcases hcs : cf item.id "incident" with _ | ⟨c, rest⟩
      · simp [hcs, lookup_aupdate_self]
      · rcases hd : c.creation_date with _ | d
        · simp [hcs, hd, lookup_aupdate_self]
        · by_cases hde : d = "" <;> simp [hcs, hd, hde, lookup_aupdate_self]

/-- C1 counterexample: in the REST tracker a brand-new item with one
dated comment does not produce exactly one event - it yields both the
NewItem and a NewComment event in the same cycle, contrary to the claim. -/
theorem C1_counterexample :
    get_new_activities
        (UClient.ofPure [⟨"I1", .name "open"⟩] [] fun _ _ => [⟨some "2024-01-01"⟩])
        "t0" ⟨[], [], none⟩ =
      .ok (⟨[⟨"I1", .name "open"⟩],
            [.new_comment ⟨"I1", .name "open"⟩ ⟨some "2024-01-01"⟩], [], []⟩,
           ⟨[("I1", ⟨"open", some "2024-01-01"⟩)], [], some "t0"⟩) ∧
    [UUpdate.new_comment ⟨"I1", .name "open"⟩ ⟨some "2024-01-01"⟩] ≠ [] :=
  ⟨rfl, by simp⟩

/-- C1 witness: concrete instances of the amended claim in both trackers. -/
theorem C1_new_item_events_witness :
    (bItemKey ⟨some "I1", some "open"⟩ = some "I1" ∧
      List.lookup "I1" (⟨[], [], none⟩ : BCache).incidents = none ∧
      ((check_for_updates ⟨[⟨some "I1", some "open"⟩], [],
          fun _ _ => [⟨some "2024-01-01"⟩]⟩ "t0" ⟨[], [], none⟩).1.new_incidents =
          [⟨some "I1", some "open"⟩] ∧
        (check_for_updates ⟨[⟨some "I1", some "open"⟩], [],
          fun _ _ => [⟨some "2024-01-01"⟩]⟩ "t0" ⟨[], [], none⟩).1.updated_incidents = [] ∧
        List.lookup "I1" (check_for_updates ⟨[⟨some "I1", some "open"⟩], [],
          fun _ _ => [⟨some "2024-01-01"⟩]⟩ "t0" ⟨[], [], none⟩).2.incidents =
          some ⟨some "open",
            get_latest_comment_date
              ((fun (_ _ : String) => [(⟨some "2024-01-01"⟩ : BComment)]) "I1" "incident"),
            some "t0"⟩)) ∧
    ((⟨"I2", .name "open"⟩ : UItem).id ≠ "" ∧
      List.lookup (⟨"I2", .name "open"⟩ : UItem).id (⟨[], [], none⟩ : UCache).incidents = none ∧
      ∃ r c₁,
        get_new_activities (UClient.ofPure [⟨"I2", .name "open"⟩] [] fun _ _ => []) "t0"
            ⟨[], [], none⟩ = .ok (r, c₁) ∧
        r.new_incidents = [⟨"I2", .name "open"⟩] ∧
        (∀ upd ∈ r.updated_incidents, upd.isStatusChange = false) ∧
        (match (fun (_ _ : String) => ([] : List UComment)) (⟨"I2", .name "open"⟩ : UItem).id
            "incident" with
         | [] =>
           r.updated_incidents = [] ∧
             List.lookup (⟨"I2", .name "open"⟩ : UItem).id c₁.incidents =
               some ⟨uStatusName ⟨"I2", .name "open"⟩, none⟩
         | c :: _ =>
           match c.creation_date with
           | none =>
             r.updated_incidents = [] ∧
               List.lookup (⟨"I2", .name "open"⟩ : UItem).id c₁.incidents =
                 some ⟨uStatusName ⟨"I2", .name "open"⟩, none⟩
           | some d =>
             if d = "" then
               r.updated_incidents = [] ∧
                 List.lookup (⟨"I2", .name "open"⟩ : UItem).id c₁.incidents =
                   some ⟨uStatusName ⟨"I2", .name "open"⟩, none⟩
             else
               r.updated_incidents = [.new_comment ⟨"I2", .name "open"⟩ c] ∧
                 List.lookup (⟨"I2", .name "open"⟩ : UItem).id c₁.incidents =
                   some ⟨uStatusName ⟨"I2", .name "open"⟩, some d⟩)) := by
  constructor
  · exact ⟨rfl, rfl,
      C1_new_item_events.1 ⟨some "I1", some "open"⟩ []
        (fun _ _ => [⟨some "2024-01-01"⟩]) "t0" ⟨[], [], none⟩ "I1" rfl rfl⟩
  · exact ⟨by decide, rfl,
      C1_new_item_events.2 ⟨"I2", .name "open"⟩ [] (fun _ _ => []) "t0" ⟨[], [], none⟩
        (by decide) rfl⟩

/-- C6 (amended): for a known id, the browser tracker emits a
StatusChanged event carrying the old and new status exactly when both the
cached and the fetched status are non-empty and differ, updating the
entry's status exactly then.  The REST tracker emits the event (and
updates the entry) whenever the resolved status name - absent payloads
resolve to Unknown - differs from the cached value, with no non-emptiness
requirement. -/
theorem C6_status_change_events :
    (∀ (item : BItem) (chs : List BItem) (f : String → String → List BComment)
        (now : String) (prev : BCache) (iid : String) (e : BEntry),
      bItemKey item = some iid →
      List.lookup iid prev.incidents = some e →
      ((check_for_updates ⟨[item], chs, f⟩ now prev).1.updated_incidents.filter
          BUpdate.isStatusChange =
        (if bStatusFire e.status item.status then
           [.status_change item (e.status.getD "") (item.status.getD "")]
         else [])) ∧
      (∃ e₂, List.lookup iid (check_for_updates ⟨[item], chs, f⟩ now prev).2.incidents =
          some e₂ ∧
        e₂.status = (if bStatusFire e.status item.status then item.status else e.status)) ∧
      (bStatusFire e.status item.status = true ↔
        ∃ p c₁, e.status = some p ∧ item.status = some c₁ ∧ p ≠ "" ∧ c₁ ≠ "" ∧ p ≠ c₁)) ∧
    (∀ (item : UItem) (chs : List UItem) (cf : String → String → List UComment)
        (now : String) (c₀ : UCache) (e : UEntry),
      item.id ≠ "" →
      List.lookup item.id c₀.incidents = some e →
      ∃ r c₁, get_new_activities (UClient.ofPure [item] chs cf) now c₀ = .ok (r, c₁) ∧
        (r.updated_incidents.filter UUpdate.isStatusChange =
          (if uStatusName item = e.last_status then []
           else [.status_change item e.last_status (uStatusName item)])) ∧
        (∃ e₂, List.lookup item.id c₁.incidents = some e₂ ∧
          e₂.last_status =
            (if uStatusName item = e.last_status then e.last_status else uStatusName item))) := by
  constructor
  · intro item chs f now prev iid e hk hm
    rw [check_for_updates_def]
    simp only [bFold_singleton]
    rw [bStep_known f "incident" now prev.incidents [] [] item iid e hk hm]
    refine ⟨?_, ?_, ?_⟩
    · by_cases hsf : bStatusFire e.status item.status <;>
        by_cases hcf : bCommentFire e.last_comment_date
          (get_latest_comment_date (f iid "incident"))
      · rcases hlc : bLatestComment (f iid "incident") with _ | lc <;>
          simp [hsf, hcf, hlc, List.filter, BUpdate.isStatusChange]
      · simp [hsf, hcf, List.filter, BUpdate.isStatusChange]
      · rcases hlc : bLatestComment (f iid "incident") with _ | lc <;>
          simp [hsf, hcf, hlc, List.filter, BUpdate.isStatusChange]
      · simp [hsf, hcf, List.filter, BUpdate.isStatusChange]
    · by_cases hsf : bStatusFire e.status item.status <;>
        by_cases hcf : bCommentFire e.last_comment_date
          (get_latest_comment_date (f iid "incident"))
      · exact ⟨⟨item.status, get_latest_comment_date (f iid "incident"), e.last_check⟩,
          by simp [hsf, hcf, lookup_aupdate_self], by simp [hsf]⟩
      · exact ⟨{ e with status := item.status },
          by simp [hsf, hcf, lookup_aupdate_self], by simp [hsf]⟩
      · exact ⟨{ e with last_comment_date := get_latest_comment_date (f iid "incident") },
          by simp [hsf, hcf, lookup_aupdate_self], by simp [hsf]⟩
      · exact ⟨e, by simp [hsf, hcf, hm], by simp [hsf]⟩
    · rcases e.status with _ | p <;> rcases hi : item.status with _ | c₁ <;>
        simp [bStatusFire, hi, decide_eq_true_eq]
  · intro item chs cf now c₀ e hid hm
    refine ⟨(uRunPure [item] chs cf now c₀).1, (uRunPure [item] chs cf now c₀).2,
      get_new_activities_ofPure [item] chs cf now c₀, ?_, ?_⟩ <;>
      simp only [uRunPure, uFoldPure_singleton,
        uStepPure_known cf "incident" c₀.incidents [] [] item e hid hm]
    · by_cases hs : uStatusName item = e.last_status <;>
        rcases hcs : cf item.id "incident" with _ | ⟨c, rest⟩
      · simp [hs, List.filter]
      · rcases hd : c.creation_date with _ | d
        · simp [hs, hd, List.filter]
        · by_cases hf : newCommentFires e.last_comment_date d <;>
            simp [hs, hd, hf, List.filter, UUpdate.isStatusChange]
      · simp [hs, List.filter, UUpdate.isStatusChange]
      · rcases hd : c.creation_date with _ | d
        · simp [hs, hd, List.filter, UUpdate.isStatusChange]
        · by_cases hf : newCommentFires e.last_comment_date d <;>
            simp [hs, hd, hf, List.filter, UUpdate.isStatusChange]
    · by_cases hs : uStatusName item = e.last_status <;>
        rcases hcs : cf item.id "incident" with _ | ⟨c, rest⟩
      · exact ⟨e, by simp [hs, hm], by simp [hs]⟩
      · rcases hd : c.creation_date with _ | d
        · exact ⟨e, by simp [hs, hd, hm], by simp [hs]⟩
        · by_cases hf : newCommentFires e.last_comment_date d
          · exact ⟨{ e with last_comment_date := some d },
              by simp [hs, hd, hf, lookup_aupdate_self], by simp [hs]⟩
          · exact ⟨e, by simp [hs, hd, hf, hm], by simp [hs]⟩
      · exact ⟨{ e with last_status := uStatusName item },
          by simp [hs, lookup_aupdate_self], by simp [hs]⟩
      · rcases hd : c.creation_date with _ | d
        · exact ⟨{ e with last_status := uStatusName item },
            by simp [hs, hd, lookup_aupdate_self], by simp [hs]⟩
        · by_cases hf : newCommentFires e.last_comment_date d
          · exact ⟨⟨uStatusName item, some d⟩,
              by simp [hs, hd, hf, lookup_aupdate_self], by simp [hs]⟩
          · exact ⟨{ e with last_status := uStatusName item },
              by simp [hs, hd, hf, lookup_aupdate_self], by simp [hs]⟩

/-- C6 counterexample: the REST tracker emits
StatusChanged(old=open, new=empty) for a known incident whose fetched
status name is the empty string, although the claim requires both
statuses to be non-empty for the event to fire. -/
theorem C6_counterexample :
    get_new_activities (UClient.ofPure [⟨"I1", .name ""⟩] [] fun _ _ => []) "t0"
        ⟨[("I1", ⟨"open", none⟩)], [], none⟩ =
      .ok (⟨[], [.status_change ⟨"I1", .name ""⟩ "open" ""], [], []⟩,
           ⟨[("I1", ⟨"", none⟩)], [], some "t0"⟩) ∧
    ("" : String).isEmpty = true :=
  ⟨rfl, rfl⟩

/-- C6 witness: concrete instances of the amended claim in both trackers
(a known incident whose status string changes from open to closed). -/
theorem C6_status_change_events_witness :
    (bItemKey ⟨some "I1", some "closed"⟩ = some "I1" ∧
      List.lookup "I1"
          (⟨[("I1", ⟨some "open", none, none⟩)], [], none⟩ : BCache).incidents =
        some ⟨some "open", none, none⟩ ∧
      ((check_for_updates ⟨[⟨some "I1", some "closed"⟩], [], fun _ _ => []⟩ "t0"
            ⟨[("I1", ⟨some "open", none, none⟩)], [], none⟩).1.updated_incidents.filter
          BUpdate.isStatusChange =
        (if bStatusFire (some "open") (some "closed") then
           [.status_change ⟨some "I1", some "closed"⟩ ((some "open").getD "")
              ((some "closed").getD "")]
         else []) ∧
       (∃ e₂, List.lookup "I1"
            (check_for_updates ⟨[⟨some "I1", some "closed"⟩], [], fun _ _ => []⟩ "t0"
              ⟨[("I1", ⟨some "open", none, none⟩)], [], none⟩).2.incidents = some e₂ ∧
          e₂.status =
            (if bStatusFire (some "open") (some "closed") then some "closed"
             else some "open")) ∧
       (bStatusFire (some "open") (some "closed") = true ↔
         ∃ p c₁, (some "open" : Option String) = some p ∧
           (some "closed" : Option String) = some c₁ ∧ p ≠ "" ∧ c₁ ≠ "" ∧ p ≠ c₁))) ∧
    ((⟨"I1", .name "closed"⟩ : UItem).id ≠ "" ∧
      List.lookup (⟨"I1", .name "closed"⟩ : UItem).id
          (⟨[("I1", ⟨"open", none⟩)], [], none⟩ : UCache).incidents = some ⟨"open", none⟩ ∧
      ∃ r c₁,
        get_new_activities (UClient.ofPure [⟨"I1", .name "closed"⟩] [] fun _ _ => []) "t0"
            ⟨[("I1", ⟨"open", none⟩)], [], none⟩ = .ok (r, c₁) ∧
        (r.updated_incidents.filter UUpdate.isStatusChange =
          (if uStatusName ⟨"I1", .name "closed"⟩ = (⟨"open", none⟩ : UEntry).last_status then []
           else [.status_change ⟨"I1", .name "closed"⟩ (⟨"open", none⟩ : UEntry).last_status
              (uStatusName ⟨"I1", .name "closed"⟩)])) ∧
        (∃ e₂, List.lookup (⟨"I1", .name "closed"⟩ : UItem).id c₁.incidents = some e₂ ∧
          e₂.last_status =
            (if uStatusName ⟨"I1", .name "closed"⟩ = (⟨"open", none⟩ : UEntry).last_status then
               (⟨"open", none⟩ : UEntry).last_status
             else uStatusName ⟨"I1", .name "closed"⟩))) := by
  constructor
  · exact ⟨rfl, rfl,
      C6_status_change_events.1 ⟨some "I1", some "closed"⟩ [] (fun _ _ => []) "t0"
        ⟨[("I1", ⟨some "open", none, none⟩)], [], none⟩ "I1" ⟨some "open", none, none⟩ rfl rfl⟩
  · exact ⟨by decide, rfl,
      C6_status_change_events.2 ⟨"I1", .name "closed"⟩ [] (fun _ _ => []) "t0"
        ⟨[("I1", ⟨"open", none⟩)], [], none⟩ ⟨"open", none⟩ (by decide) rfl⟩

theorem newCommentFires_iff (cached : Option String) (d : String) :
    newCommentFires cached d = true ↔
      d ≠ "" ∧ (cached = none ∨ cached = some "" ∨ ∃ p, cached = some p ∧ p < d) := by
  rcases cached with _ | p
  · simp [newCommentFires]
  · by_cases hp : p = ""
    · simp [newCommentFires, hp, decide_eq_true_eq]
    · simp [newCommentFires, hp, decide_eq_true_eq]
      intro _
      rw [strLtB_iff p d]
      exact String.lt_iff_toList_lt

theorem bCommentFire_iff (cached lcd : Option String) :
    bCommentFire cached lcd = true ↔
      ∃ d, lcd = some d ∧ d ≠ "" ∧
        (cached = none ∨ cached = some "" ∨ ∃ p, cached = some p ∧ p < d) := by
  rcases lcd with _ | d
  · simp [bCommentFire]
  · simp [bCommentFire, newCommentFires_iff]

/-- C7 (amended): for a known id, the browser tracker emits a NewComment
event exactly when the resolver finds a truthy latest comment date that
either has no cached counterpart (null or empty) or strictly exceeds it -
a latest date equal to or earlier than the cached value yields no event -
and exactly then the entry's `last_comment_date` becomes that date.  The
REST tracker applies the same cached-value comparison but only to the
*first* fetched comment's date, not to the true latest one. -/
theorem C7_new_comment_events :
    (∀ (item : BItem) (chs : List BItem) (f : String → String → List BComment)
        (now : String) (prev : BCache) (iid : String) (e : BEntry),
      bItemKey item = some iid →
      List.lookup iid prev.incidents = some e →
      ((check_for_updates ⟨[item], chs, f⟩ now prev).1.updated_incidents.filter
          BUpdate.isNewComment =
        (if bCommentFire e.last_comment_date (get_latest_comment_date (f iid "incident")) then
           match bLatestComment (f iid "incident") with
           | some lc => [.new_comment item lc]
           | none => []
         else [])) ∧
      (∃ e₂, List.lookup iid (check_for_updates ⟨[item], chs, f⟩ now prev).2.incidents =
          some e₂ ∧
        e₂.last_comment_date =
          (if bCommentFire e.last_comment_date (get_latest_comment_date (f iid "incident")) then
             get_latest_comment_date (f iid "incident")
           else e.last_comment_date)) ∧
      (bCommentFire e.last_comment_date (get_latest_comment_date (f iid "incident")) = true ↔
        ∃ d, get_latest_comment_date (f iid "incident") = some d ∧ d ≠ "" ∧
          (e.last_comment_date = none ∨ e.last_comment_date = some "" ∨
            ∃ p, e.last_comment_date = some p ∧ p < d))) ∧
    (∀ (item : UItem) (chs : List UItem) (cf : String → String → List UComment)
        (now : String) (c₀ : UCache) (e : UEntry),
      item.id ≠ "" →
      List.lookup item.id c₀.incidents = some e →
      ∃ r c₁, get_new_activities (UClient.ofPure [item] chs cf) now c₀ = .ok (r, c₁) ∧
        (r.updated_incidents.filter UUpdate.isNewComment =
          (match cf item.id "incident" with
           | [] => []
           | c :: _ =>
             if uHeadFire e.last_comment_date (cf item.id "incident") then
               [.new_comment item c]
             else [])) ∧
        (∃ e₂, List.lookup item.id c₁.incidents = some e₂ ∧
          e₂.last_comment_date =
            (match cf item.id "incident" with
             | [] => e.last_comment_date
             | c :: _ =>
               match c.creation_date with
               | none => e.last_comment_date
               | some d =>
                 if newCommentFires e.last_comment_date d then some d
                 else e.last_comment_date))) := by
  constructor
  · intro item chs f now prev iid e hk hm
    rw [check_for_updates_def]
    simp only [bFold_singleton]
    rw [bStep_known f "incident" now prev.incidents [] [] item iid e hk hm]
    refine ⟨?_, ?_, ?_⟩
    · by_cases hsf : bStatusFire e.status item.status <;>
        by_cases hcf : bCommentFire e.last_comment_date
          (get_latest_comment_date (f iid "incident"))
      · rcases hlc : bLatestComment (f iid "incident") with _ | lc <;>
          simp [hsf, hcf, hlc, List.filter, BUpdate.isNewComment]
      · simp [hsf, hcf, List.filter, BUpdate.isNewComment]
      · rcases hlc : bLatestComment (f iid "incident") with _ | lc <;>
          simp [hsf, hcf, hlc, List.filter, BUpdate.isNewComment]
      · simp [hsf, hcf, List.filter, BUpdate.isNewComment]
    · by_cases hsf : bStatusFire e.status item.status <;>
        by_cases hcf : bCommentFire e.last_comment_date
          (get_latest_comment_date (f iid "incident"))
      · exact ⟨⟨item.status, get_latest_comment_date (f iid "incident"), e.last_check⟩,
          by simp [hsf, hcf, lookup_aupdate_self], by simp [hcf]⟩
      · exact ⟨{ e with status := item.status },
          by simp [hsf, hcf, lookup_aupdate_self], by simp [hcf]⟩
      · exact ⟨{ e with last_comment_date := get_latest_comment_date (f iid "incident") },
          by simp [hsf, hcf, lookup_aupdate_self], by simp [hcf]⟩
      · exact ⟨e, by simp [hsf, hcf, hm], by simp [hcf]⟩
    · exact bCommentFire_iff e.last_comment_date (get_latest_comment_date (f iid "incident"))
  · intro item chs cf now c₀ e hid hm
    refine ⟨(uRunPure [item] chs cf now c₀).1, (uRunPure [item] chs cf now c₀).2,
      get_new_activities_ofPure [item] chs cf now c₀, ?_, ?_⟩ <;>
      simp only [uRunPure, uFoldPure_singleton,
        uStepPure_known cf "incident" c₀.incidents [] [] item e hid hm]
    · by_cases hs : uStatusName item = e.last_status <;>
        rcases hcs : cf item.id "incident" with _ | ⟨c, rest⟩
      · simp [hcs, hs, List.filter]
      · rcases hd : c.creation_date with _ | d
        · simp [hcs, hs, hd, List.filter, uHeadFire]
        · by_cases hf : newCommentFires e.last_comment_date d <;>
            simp [hcs, hs, hd, hf, List.filter, uHeadFire, UUpdate.isNewComment]
      · simp [hcs, hs, List.filter, UUpdate.isNewComment]
      · rcases hd : c.creation_date with _ | d
        · simp [hcs, hs, hd, List.filter, uHeadFire, UUpdate.isNewComment]
        · by_cases hf : newCommentFires e.last_comment_date d <;>
            simp [hcs, hs, hd, hf, List.filter, uHeadFire, UUpdate.isNewComment]
    · by_cases hs : uStatusName item = e.last_status <;>
        rcases hcs : cf item.id "incident" with _ | ⟨c, rest⟩
      · exact ⟨e, by simp [hcs, hs, hm], by simp [hcs]⟩
      · rcases hd : c.creation_date with _ | d
        · exact ⟨e, by simp [hcs, hs, hd, hm], by simp [hcs, hd]⟩
        · by_cases hf : newCommentFires e.last_comment_date d
          · exact ⟨{ e with last_comment_date := some d },
              by simp [hcs, hs, hd, hf, lookup_aupdate_self], by simp [hcs, hd, hf]⟩
          · exact ⟨e, by simp [hcs, hs, hd, hf, hm], by simp [hcs, hd, hf]⟩
      · exact ⟨{ e with last_status := uStatusName item },
          by simp [hcs, hs, lookup_aupdate_self], by simp [hcs]⟩
      · rcases hd : c.creation_date with _ | d
        · exact ⟨{ e with last_status := uStatusName item },
            by simp [hcs, hs, hd, lookup_aupdate_self], by simp [hcs, hd]⟩
        · by_cases hf : newCommentFires e.last_comment_date d
          · exact ⟨⟨uStatusName item, some d⟩,
              by simp [hcs, hs, hd, hf, lookup_aupdate_self], by simp [hcs, hd, hf]⟩
          · exact ⟨{ e with last_status := uStatusName item },
              by simp [hcs, hs, hd, hf, lookup_aupdate_self], by simp [hcs, hd, hf]⟩

/-- C7 counterexample: for a known incident cached at 2024-02-01 whose
fetched comments are ordered oldest-first, the true latest comment
(2024-03-01) strictly exceeds the cached value, yet the REST tracker
emits no NewComment event and leaves the entry unchanged, because it only
inspects the first fetched comment (2024-01-01). -/
theorem C7_counterexample :
    get_new_activities
        (UClient.ofPure [⟨"I1", .name "open"⟩] []
          fun _ _ => [⟨some "2024-01-01"⟩, ⟨some "2024-03-01"⟩])
        "t0" ⟨[("I1", ⟨"open", some "2024-02-01"⟩)], [], none⟩ =
      .ok (⟨[], [], [], []⟩,
           ⟨[("I1", ⟨"open", some "2024-02-01"⟩)], [], some "t0"⟩) ∧
    get_latest_comment_date [⟨some "2024-01-01"⟩, ⟨some "2024-03-01"⟩] =
      some "2024-03-01" ∧
    ("2024-02-01" : String) < "2024-03-01" :=
  ⟨rfl, by decide, strLtB_iff "2024-02-01" "2024-03-01" |>.mp (by decide)⟩

/-- C7 witness: concrete instances - a known incident with one comment
dated strictly after the cached value fires exactly one NewComment in
both trackers (conclusions stated in evaluated form). -/
theorem C7_new_comment_events_witness :
    (bItemKey ⟨some "I1", some "open"⟩ = some "I1" ∧
      List.lookup "I1"
          (⟨[("I1", ⟨some "open", some "2024-01-01", none⟩)], [], none⟩ : BCache).incidents =
        some ⟨some "open", some "2024-01-01", none⟩ ∧
      ((check_for_updates ⟨[⟨some "I1", some "open"⟩], [],
            fun _ _ => [⟨some "2024-02-01"⟩]⟩ "t0"
            ⟨[("I1", ⟨some "open", some "2024-01-01", none⟩)], [],
              none⟩).1.updated_incidents.filter BUpdate.isNewComment =
          [.new_comment ⟨some "I1", some "open"⟩ ⟨some "2024-02-01"⟩] ∧
        (∃ e₂, List.lookup "I1"
            (check_for_updates ⟨[⟨some "I1", some "open"⟩], [],
              fun _ _ => [⟨some "2024-02-01"⟩]⟩ "t0"
              ⟨[("I1", ⟨some "open", some "2024-01-01", none⟩)], [], none⟩).2.incidents =
          some e₂ ∧ e₂.last_comment_date = some "2024-02-01") ∧
        (bCommentFire (some "2024-01-01") (some "2024-02-01") = true ↔
          ∃ d, (some "2024-02-01" : Option String) = some d ∧ d ≠ "" ∧
            ((some "2024-01-01" : Option String) = none ∨
              (some "2024-01-01" : Option String) = some "" ∨
              ∃ p, (some "2024-01-01" : Option String) = some p ∧ p < d)))) ∧
    ((⟨"I1", .name "open"⟩ : UItem).id ≠ "" ∧
      List.lookup "I1"
          (⟨[("I1", ⟨"open", some "2024-01-01"⟩)], [], none⟩ : UCache).incidents =
        some ⟨"open", some "2024-01-01"⟩ ∧
      ∃ r c₁,
        get_new_activities
            (UClient.ofPure [⟨"I1", .name "open"⟩] [] fun _ _ => [⟨some "2024-02-01"⟩]) "t0"
            ⟨[("I1", ⟨"open", some "2024-01-01"⟩)], [], none⟩ = .ok (r, c₁) ∧
        r.updated_incidents.filter UUpdate.isNewComment =
          [.new_comment ⟨"I1", .name "open"⟩ ⟨some "2024-02-01"⟩] ∧
        ∃ e₂, List.lookup "I1" c₁.incidents = some e₂ ∧
          e₂.last_comment_date = some "2024-02-01") := by
  constructor
  · exact ⟨rfl, rfl,
      C7_new_comment_events.1 ⟨some "I1", some "open"⟩ []
        (fun _ _ => [⟨some "2024-02-01"⟩]) "t0"
        ⟨[("I1", ⟨some "open", some "2024-01-01", none⟩)], [], none⟩ "I1"
        ⟨some "open", some "2024-01-01", none⟩ rfl rfl⟩
  · exact ⟨by decide, rfl,
      C7_new_comment_events.2 ⟨"I1", .name "open"⟩ []
        (fun _ _ => [⟨some "2024-02-01"⟩]) "t0"
        ⟨[("I1", ⟨"open", some "2024-01-01"⟩)], [], none⟩ ⟨"open", some "2024-01-01"⟩
        (by decide) rfl⟩

/-- C10: the REST tracker substitutes the label Unknown for an absent
status payload or status name: the entry created on first sighting stores
last_status Unknown, no StatusChanged is emitted for the item on either of
two consecutive runs with the status field still absent, and the entry
still stores Unknown afterwards. -/
theorem C10_unknown_status :
    ∀ (item : UItem) (chs : List UItem) (cf : String → String → List UComment)
      (now₁ now₂ : String) (c₀ : UCache),
      item.id ≠ "" →
      (item.status = .absent ∨ item.status = .noName) →
      List.lookup item.id c₀.incidents = none →
      ∃ r₁ c₁ r₂ c₂,
        get_new_activities (UClient.ofPure [item] chs cf) now₁ c₀ = .ok (r₁, c₁) ∧
        (∃ e₁, List.lookup item.id c₁.incidents = some e₁ ∧ e₁.last_status = "Unknown") ∧
        (∀ u ∈ r₁.updated_incidents, u.isStatusChange = false) ∧
        get_new_activities (UClient.ofPure [item] chs cf) now₂ c₁ = .ok (r₂, c₂) ∧
        r₂.new_incidents = [] ∧ r₂.updated_incidents = [] ∧
        (∃ e₂, List.lookup item.id c₂.incidents = some e₂ ∧ e₂.last_status = "Unknown") := by
  intro item chs cf now₁ now₂ c₀ hid hst hm
  have hu : uStatusName item = "Unknown" := by
    rcases hst with h | h <;> simp [uStatusName, h, nameOrUnknown]
  have hstable : uStable cf "incident"
      (uStepPure cf "incident" (c₀.incidents, [], []) item).1 item :=
    uStable_after_step cf "incident" c₀.incidents [] [] item hid
  obtain ⟨e₁, he₁, hs₁, hf₁⟩ := hstable hid
  have hid2 := uStable_step_id cf "incident"
    (uStepPure cf "incident" (c₀.incidents, [], []) item).1 [] [] item hstable
  refine ⟨(uRunPure [item] chs cf now₁ c₀).1, (uRunPure [item] chs cf now₁ c₀).2,
    (uRunPure [item] chs cf now₂ (uRunPure [item] chs cf now₁ c₀).2).1,
    (uRunPure [item] chs cf now₂ (uRunPure [item] chs cf now₁ c₀).2).2,
    get_new_activities_ofPure [item] chs cf now₁ c₀, ?_, ?_,
    get_new_activities_ofPure [item] chs cf now₂ _, ?_, ?_, ?_⟩
  · exact ⟨e₁, by simpa [uRunPure, uFoldPure_singleton] using he₁, by rw [← hs₁, hu]⟩
  · intro u hu₁
    simp only [uRunPure, uFoldPure_singleton] at hu₁
    rw [uStepPure_new cf "incident" c₀.incidents [] [] item hid hm] at hu₁
    rcases hcs : cf item.id "incident" with _ | ⟨c, rest⟩
    · simp [hcs] at hu₁
    · rcases hd : c.creation_date with _ | d
      · simp [hcs, hd] at hu₁
      · by_cases hde : d = ""
        · simp [hcs, hd, hde] at hu₁
        · simp [hcs, hd, hde] at hu₁
          rw [hu₁]
          rfl
  · simp only [uRunPure, uFoldPure_singleton]
    rw [hid2]
  · simp only [uRunPure, uFoldPure_singleton]
    rw [hid2]
  · refine ⟨e₁, ?_, by rw [← hs₁, hu]⟩
    simp only [uRunPure, uFoldPure_singleton]
    rw [hid2]
    simpa [uRunPure, uFoldPure_singleton] using he₁

/-- C10 witness: a concrete item with no status payload is tracked as
Unknown and never yields a StatusChanged event across two runs. -/
theorem C10_unknown_status_witness :
    ((⟨"I1", .absent⟩ : UItem).id ≠ "" ∧
      ((⟨"I1", .absent⟩ : UItem).status = .absent ∨
        (⟨"I1", .absent⟩ : UItem).status = .noName) ∧
      List.lookup (⟨"I1", .absent⟩ : UItem).id (⟨[], [], none⟩ : UCache).incidents = none) ∧
    (∃ r₁ c₁ r₂ c₂,
      get_new_activities (UClient.ofPure [⟨"I1", .absent⟩] [] fun _ _ => []) "t1"
          ⟨[], [], none⟩ = .ok (r₁, c₁) ∧
      (∃ e₁, List.lookup "I1" c₁.incidents = some e₁ ∧ e₁.last_status = "Unknown") ∧
      (∀ u ∈ r₁.updated_incidents, u.isStatusChange = false) ∧
      get_new_activities (UClient.ofPure [⟨"I1", .absent⟩] [] fun _ _ => []) "t2" c₁ =
        .ok (r₂, c₂) ∧
      r₂.new_incidents = [] ∧ r₂.updated_incidents = [] ∧
      (∃ e₂, List.lookup "I1" c₂.incidents = some e₂ ∧ e₂.last_status = "Unknown")) :=
  ⟨⟨by decide, Or.inl rfl, rfl⟩,
    C10_unknown_status ⟨"I1", .absent⟩ [] (fun _ _ => []) "t1" "t2" ⟨[], [], none⟩
      (by decide) (Or.inl rfl) rfl⟩

/-- C2 (amended): the browser's comment recency resolver
(`_get_latest_comment_date`, plus the sorted-descending head used to pick
the comment object) satisfies the claim: null for the empty list, the
greatest truthy `creation_date` under the total order otherwise
(independent of input order), and the picked comment carries that date.
The REST tracker does not use this resolver: it takes `comments[0]`, the
first fetched comment (see the counterexample). -/
theorem C2_latest_comment_resolver :
    (get_latest_comment_date [] = none) ∧
    (∀ (cs : List BComment) (d : String), get_latest_comment_date cs = some d →
      d ∈ bDates cs ∧ ∀ x ∈ bDates cs, x ≤ d) ∧
    (∀ cs : List BComment, bDates cs ≠ [] → ∃ d, get_latest_comment_date cs = some d) ∧
    (∀ (cs : List BComment) (d : String), get_latest_comment_date cs = some d →
      ∃ lc, bLatestComment cs = some lc ∧ lc.creation_date = some d) ∧
    (get_latest_comment_date [⟨some "2024-01-01"⟩, ⟨some "2024-03-01"⟩] =
        some "2024-03-01" ∧
      get_latest_comment_date [⟨some "2024-03-01"⟩, ⟨some "2024-01-01"⟩] =
        some "2024-03-01" ∧
      bLatestComment [⟨some "2024-01-01"⟩, ⟨some "2024-03-01"⟩] =
        some ⟨some "2024-03-01"⟩) :=
  ⟨rfl, get_latest_comment_date_spec, get_latest_comment_date_isSome, bLatestComment_key,
   by decide, by decide, by decide⟩

/-- C2 counterexample: on a two-element comment list whose second comment
has the later date, the REST tracker selects the FIRST comment (emitting
it and caching its date), not the second as the claim requires; the
order-independent resolver would have returned the second comment's date. -/
theorem C2_counterexample :
    get_new_activities
        (UClient.ofPure [⟨"I1", .name "open"⟩] []
          fun _ _ => [⟨some "2024-01-01"⟩, ⟨some "2024-03-01"⟩])
        "t0" ⟨[("I1", ⟨"open", none⟩)], [], none⟩ =
      .ok (⟨[], [.new_comment ⟨"I1", .name "open"⟩ ⟨some "2024-01-01"⟩], [], []⟩,
           ⟨[("I1", ⟨"open", some "2024-01-01"⟩)], [], some "t0"⟩) ∧
    (⟨some "2024-01-01"⟩ : UComment) ≠ ⟨some "2024-03-01"⟩ ∧
    get_latest_comment_date [⟨some "2024-01-01"⟩, ⟨some "2024-03-01"⟩] =
      some "2024-03-01" :=
  ⟨rfl, by decide, by decide⟩

/-- C2 witness: the max property and the comment pick, instantiated at the
claim's two-element example. -/
theorem C2_latest_comment_resolver_witness :
    (get_latest_comment_date [(⟨some "2024-01-01"⟩ : BComment), ⟨some "2024-03-01"⟩] =
        some "2024-03-01" ∧
      bDates [(⟨some "2024-01-01"⟩ : BComment), ⟨some "2024-03-01"⟩] ≠ []) ∧
    ("2024-03-01" ∈ bDates [(⟨some "2024-01-01"⟩ : BComment), ⟨some "2024-03-01"⟩] ∧
      ∀ x ∈ bDates [(⟨some "2024-01-01"⟩ : BComment), ⟨some "2024-03-01"⟩],
        x ≤ "2024-03-01") ∧
    (∃ d, get_latest_comment_date [(⟨some "2024-01-01"⟩ : BComment), ⟨some "2024-03-01"⟩] =
        some d) ∧
    (∃ lc, bLatestComment [(⟨some "2024-01-01"⟩ : BComment), ⟨some "2024-03-01"⟩] =
        some lc ∧ lc.creation_date = some "2024-03-01") :=
  ⟨⟨by decide, by decide⟩,
   C2_latest_comment_resolver.2.1 [⟨some "2024-01-01"⟩, ⟨some "2024-03-01"⟩]
     "2024-03-01" (by decide),
   C2_latest_comment_resolver.2.2.1 [⟨some "2024-01-01"⟩, ⟨some "2024-03-01"⟩] (by decide),
   C2_latest_comment_resolver.2.2.2.1 [⟨some "2024-01-01"⟩, ⟨some "2024-03-01"⟩]
     "2024-03-01" (by decide)⟩

/-- C9 (amended): the summary report iterates every id in the cache
mappings and never aborts: an id whose per-id detail fetch raises gets the
degraded record {id, cached status, error}, and an id whose fetch returns
a truthy payload gets the full record.  An id whose fetch succeeds with an
empty payload (`_make_request` returns None for an empty response body)
gets no record at all, contrary to the claim (see the counterexample). -/
theorem C9_summary_records :
    ∀ (client : UClient) (cache : UCache) (iid : String) (e : UEntry),
      ((iid, e) ∈ cache.incidents →
        (client.get_incident_details iid = .error () →
          degradedRecord iid e ∈ (get_summary_report client cache).incidents) ∧
        (∀ d, client.get_incident_details iid = .ok (some d) →
          fullIncidentRecord iid d ∈ (get_summary_report client cache).incidents)) ∧
      ((iid, e) ∈ cache.changes →
        (client.get_change_details iid = .error () →
          degradedRecord iid e ∈ (get_summary_report client cache).changes) ∧
        (∀ d, client.get_change_details iid = .ok (some d) →
          fullChangeRecord iid d ∈ (get_summary_report client cache).changes)) := by
  intro client cache iid e
  constructor
  · intro hmem
    constructor
    · intro herr
      have h₁ : degradedRecord iid e ∈ cache.incidents.filterMap (fun p =>
          match client.get_incident_details p.1 with
          | .error _ => some (degradedRecord p.1 p.2)
          | .ok none => none
          | .ok (some d) => some (fullIncidentRecord p.1 d)) :=
        List.mem_filterMap.mpr ⟨(iid, e), hmem, by simp [herr]⟩
      exact ((sortByLastUpdatedDesc_perm _).mem_iff).mpr h₁
    · intro d hok
      have h₁ : fullIncidentRecord iid d ∈ cache.incidents.filterMap (fun p =>
          match client.get_incident_details p.1 with
          | .error _ => some (degradedRecord p.1 p.2)
          | .ok none => none
          | .ok (some d) => some (fullIncidentRecord p.1 d)) :=
        List.mem_filterMap.mpr ⟨(iid, e), hmem, by simp [hok]⟩
      exact ((sortByLastUpdatedDesc_perm _).mem_iff).mpr h₁
  · intro hmem
    constructor
    · intro herr
      have h₁ : degradedRecord iid e ∈ cache.changes.filterMap (fun p =>
          match client.get_change_details p.1 with
          | .error _ => some (degradedRecord p.1 p.2)
          | .ok none => none
          | .ok (some d) => some (fullChangeRecord p.1 d)) :=
        List.mem_filterMap.mpr ⟨(iid, e), hmem, by simp [herr]⟩
      exact ((sortByLastUpdatedDesc_perm _).mem_iff).mpr h₁
    · intro d hok
      have h₁ : fullChangeRecord iid d ∈ cache.changes.filterMap (fun p =>
          match client.get_change_details p.1 with
          | .error _ => some (degradedRecord p.1 p.2)
          | .ok none => none
          | .ok (some d) => some (fullChangeRecord p.1 d)) :=
        List.mem_filterMap.mpr ⟨(iid, e), hmem, by simp [hok]⟩
      exact ((sortByLastUpdatedDesc_perm _).mem_iff).mpr h₁

/-- C9 counterexample: a tracked incident id whose per-id detail fetch
succeeds but returns an empty payload (as `_make_request` does for an
empty response body) produces no record at all: the report's incident list
is empty although the snapshot tracks I1, so the claim's "a record for
every id" is false at this input. -/
theorem C9_counterexample :
    get_summary_report
        ⟨.ok [], .ok [], fun _ _ => .ok [], fun _ => .ok none, fun _ => .ok none⟩
        ⟨[("I1", ⟨"open", none⟩)], [], none⟩ =
      ⟨[], [], none⟩ ∧
    ("I1", (⟨"open", none⟩ : UEntry)) ∈
      (⟨[("I1", ⟨"open", none⟩)], [], none⟩ : UCache).incidents :=
  ⟨rfl, by decide⟩

/-- C9 witness: a failing per-id incident fetch yields the degraded record
for that id while the report still succeeds. -/
theorem C9_summary_records_witness :
    (("I1", (⟨"open", none⟩ : UEntry)) ∈
        (⟨[("I1", ⟨"open", none⟩)], [], none⟩ : UCache).incidents ∧
      (⟨.ok [], .ok [], fun _ _ => .ok [], fun _ => .error (), fun _ => .ok none⟩ :
          UClient).get_incident_details "I1" = .error ()) ∧
    degradedRecord "I1" ⟨"open", none⟩ ∈
      (get_summary_report
        ⟨.ok [], .ok [], fun _ _ => .ok [], fun _ => .error (), fun _ => .ok none⟩
        ⟨[("I1", ⟨"open", none⟩)], [], none⟩).incidents :=
  ⟨⟨by decide, rfl⟩,
   ((C9_summary_records
      ⟨.ok [], .ok [], fun _ _ => .ok [], fun _ => .error (), fun _ => .ok none⟩
      ⟨[("I1", ⟨"open", none⟩)], [], none⟩ "I1" ⟨"open", none⟩).1 (by decide)).1 rfl⟩
